import Mathlib

/-! go-work-flow: futures, executor service and flows

A shallow embedding of `async_services.go`, `executor_services.go` and
`flow_services.go`.

* Values of type `interface{}` are `Val`; a callable is described by the part of its
  `reflect.Type` the code reads (`Kind`, `NumIn`, `IsVariadic`, `NumOut`, the zero value of
  each parameter type) and by what `reflect.Value.Call` returns.
* A `Future` is the Go struct; channels and `sync.Once` values are their contents
  (`rC` closed or not, the buffer of `aC`, the two once flags).
* Goroutines are explicit: `Sys` holds one future, the tasks of that future waiting in the
  executor's queue, the pool workers running `executeTarget` and the goroutines that are inside
  `Execute`, `Get` or `Cancel`, each with a program counter.  One `Action` is one atomic step
  of one goroutine; a schedule is a list of actions.
-/

namespace Workflow

/-! ## Values, callables, errors -/

/-- The kinds of `reflect.Kind`. -/
inductive Kind
  | Invalid | Bool | Int | Int8 | Int16 | Int32 | Int64
  | Uint | Uint8 | Uint16 | Uint32 | Uint64 | Uintptr
  | Float32 | Float64 | Complex64 | Complex128
  | Array | Chan | Func | Interface | Map | Pointer | Slice | String | Struct | RawPointer
  deriving DecidableEq, Repr

/-- Operator of a flow step (`OpType`). -/
inductive OpType
  | CALL | AND | APPLY | COMBINE
  deriving DecidableEq, Repr

/-- The errors the package builds with `fmt.Errorf`, one constructor per format string. -/
inductive Error
  /-- "mismatch in number of arguments, expected = %d, passed = %d" -/
  | mismatch (expected passed : Nat)
  /-- "%s un-supported type" -/
  | unsupportedType (k : Kind)
  /-- "ABORTED": `Get` found the stage `ABORTED`. -/
  | ABORTED
  /-- "TIMEDOUT": `Get` found the stage `TIMEDOUT`. -/
  | TIMEDOUT
  /-- "COMPLETED ALREADY": `Get` found the stage `COMPLETED`. -/
  | COMPLETED_ALREADY
  /-- "aborted": `Get` received the abort signal from `aC`. -/
  | aborted
  /-- "timedout": the timer of `Get` fired. -/
  | timedout
  /-- "%+v step (%d) failed with %s": the step whose target is printed, its operator, the cause. -/
  | stepFailed (idx : Nat) (op : OpType) (cause : Error)
  /-- "flow aborted/timedout" -/
  | flowAborted
  /-- "future not created for the flow" -/
  | futureNotCreated
  deriving DecidableEq, Repr

/-- A value of type `interface{}`. -/
inductive Val
  | nil
  | int (n : Int)
  | bool (b : Bool)
  | str (s : String)
  | err (e : Error)
  | slice (vs : List Val)

/-- What the code reads of a target through `reflect`: its kind, and for a function the
parameter count, variadicity, result count, the zero value of each parameter type
(`reflect.Zero(targetType.In(i))`) and the results of `reflect.Value.Call`. -/
structure Target where
  kind : Kind
  numIn : Nat
  isVariadic : Bool
  numOut : Nat
  zeroIn : Nat → Val
  call : List Val → List Val

/-- The stages of a future, in the order of the `iota` block. -/
inductive FutureStage
  | NOT_STARTED | SUBMITTED | RUNNING | ABORTED | TIMEDOUT | TARGET_INVOKED | COMPLETED
  deriving DecidableEq, Repr

/-- `ExecutorService`: the two sizes fixed at construction. -/
structure ExecutorService where
  maxQueueSize : Int
  maxConcurrentTasks : Int
  deriving DecidableEq, Repr

def TASK_QUEUE_MAX : Int := 100

def CONCURRENT_TASKS : Int := 50

def NewExecutorService (queueSize parallelTasks : Int) : ExecutorService :=
  { maxQueueSize := queueSize, maxConcurrentTasks := parallelTasks }

def default_es : ExecutorService := NewExecutorService TASK_QUEUE_MAX CONCURRENT_TASKS

/-! ## Future -/

/-- The struct `Future`.  `rC` is true once the response channel is closed, `aC` is the
buffer of the abort channel (capacity 1), `abortOnce` and `runOnce` are true once the
`sync.Once` has run. -/
structure Future where
  targetFunc : Target
  paramsPassed : List Val
  funcReturned : List Val
  voidReturn : Bool
  rC : Bool
  aC : List Error
  abortOnce : Bool
  runOnce : Bool
  stage : FutureStage
  es : ExecutorService

def newFuture (targetFunc : Target) : Future :=
  { targetFunc := targetFunc
    paramsPassed := []
    funcReturned := []
    voidReturn := false
    rC := false
    aC := []
    abortOnce := false
    runOnce := false
    stage := FutureStage.NOT_STARTED
    es := default_es }

def Future.SetExecutor (f : Future) (customExecutor : ExecutorService) : Future :=
  { f with es := customExecutor }

/-- `RunAsync`: the switch on `targetType.Kind()` and the arity test of the `Func` case. -/
def RunAsync (targetFunc : Target) (args : List Val) : Except Error Future :=
  match targetFunc.kind with
  | Kind.Func =>
    if targetFunc.numIn ≠ args.length ∧ targetFunc.isVariadic = false then
      Except.error (Error.mismatch targetFunc.numIn args.length)
    else
      Except.ok { newFuture targetFunc with
        paramsPassed := args
        voidReturn := targetFunc.numOut == 0 }
  | k => Except.error (Error.unsupportedType k)

/-- `callTarget`: an argument that is the nil interface is replaced by the zero value of the
parameter type, then the target is called. -/
def Future.callTarget (f : Future) : List Val :=
  f.targetFunc.call (f.paramsPassed.enum.map fun ip =>
    match ip.2 with
    | Val.nil => f.targetFunc.zeroIn ip.1
    | v => v)

def Future.Stage (f : Future) : FutureStage := f.stage

/-! ## Goroutines and atomic steps -/

/-- Program counter of a goroutine inside `Execute`: the stage test, the once-guarded
`Submit`, the stage write, the return. -/
inductive ExecutePc
  | check | submit | setStage | ret
  deriving DecidableEq, Repr

/-- Program counter of a goroutine inside `Get`: the stage test, the `select`, then the
statements of the case that fired, then the return with its two results. -/
inductive GetPc
  | check | select
  | abortClear
  | timerAbort | timerClear
  | doneStage | doneRet
  | ret (vals : List Val) (err : Option Error)

/-- Program counter of a goroutine inside `Cancel`. -/
inductive CancelPc
  | check | abort | setStage
  | ret (b : Bool)
  deriving DecidableEq, Repr

/-- A goroutine that called `Execute`, `Get(timeout)` or `Cancel` on the future. -/
inductive Goroutine
  | Execute (pc : ExecutePc)
  | Get (timeout : Int) (pc : GetPc)
  | Cancel (pc : CancelPc)

/-- Program counter of a pool worker inside `executeTarget`: the `len(f.aC)` test, the write
of `RUNNING`, the call of the target and its return, the write of `TARGET_INVOKED`, one
`append` per returned value, the deferred `close(f.rC)`. -/
inductive WorkerPc
  | lenCheck | setRunning | callTarget | inTarget
  | setInvoked (returned : List Val)
  | append (rest : List Val)
  | close | done

/-- The case of a `select` that fires. -/
inductive SelectCase
  | abort | timer | done
  deriving DecidableEq, Repr

/-- One future with everything that acts on it: the tasks `f.executeTarget` waiting in
`es.tasksQueue`, the pool workers that took such a task, the goroutines inside a method of
the future.  `submits` counts the calls of `Submit`, `calls` lists the argument lists
(`paramsPassed`) of the calls of the target made by `callTarget`; both are ghost. -/
structure Sys where
  f : Future
  tasksQueue : Nat
  workers : List WorkerPc
  callers : List Goroutine
  submits : Nat
  calls : List (List Val)

/-- The world right after `RunAsync` returned `f`. -/
def Sys.new (f : Future) : Sys :=
  { f := f, tasksQueue := 0, workers := [], callers := [], submits := 0, calls := [] }

/-- `abort`: the send `f.aC <- err`; it blocks (`none`) when the buffer of capacity 1 is
full. -/
def Future.abort (f : Future) : Option Future :=
  if f.aC.length < 1 then some { f with aC := f.aC ++ [Error.aborted] } else none

/-- `f.abortOnce.Do(f.abort)`. -/
def Future.abortOnceDo (f : Future) : Option Future :=
  if f.abortOnce then some f
  else (f.abort).map fun f1 => { f1 with abortOnce := true }

/-- One atomic step of `Execute`. -/
def Sys.stepExecute (s : Sys) : ExecutePc → Option (Sys × ExecutePc)
  | ExecutePc.check =>
    if s.f.stage ≠ FutureStage.NOT_STARTED then some (s, ExecutePc.ret)
    else some (s, ExecutePc.submit)
  | ExecutePc.submit =>
    if s.f.runOnce then some (s, ExecutePc.setStage)
    else some ({ s with
      f := { s.f with runOnce := true }
      tasksQueue := s.tasksQueue + 1
      submits := s.submits + 1 }, ExecutePc.setStage)
  | ExecutePc.setStage =>
    some ({ s with f := { s.f with stage := FutureStage.SUBMITTED } }, ExecutePc.ret)
  | ExecutePc.ret => none

/-- One atomic step of `Get(timeout)`; `c` is the case that fires when the goroutine is at
the `select`.  A case that is not ready gives `none`. -/
def Sys.stepGet (s : Sys) (timeout : Int) (c : SelectCase) : GetPc → Option (Sys × GetPc)
  | GetPc.check =>
    match s.f.stage with
    | FutureStage.ABORTED => some (s, GetPc.ret [] (some Error.ABORTED))
    | FutureStage.TIMEDOUT => some (s, GetPc.ret [] (some Error.TIMEDOUT))
    | FutureStage.COMPLETED => some (s, GetPc.ret [] (some Error.COMPLETED_ALREADY))
    | _ => some (s, GetPc.select)
  | GetPc.select =>
    match c with
    | SelectCase.abort =>
      match s.f.aC with
      | [] => none
      | _ :: rest => some ({ s with f := { s.f with aC := rest } }, GetPc.abortClear)
    | SelectCase.timer => if timeout > 0 then some (s, GetPc.timerAbort) else none
    | SelectCase.done =>
      if s.f.rC then
        some (s, GetPc.doneStage)
      else none
  | GetPc.abortClear =>
    some ({ s with f := { s.f with funcReturned := [] } }, GetPc.ret [] (some Error.aborted))
  | GetPc.timerAbort =>
    (s.f.abortOnceDo).map fun f1 => ({ s with f := f1 }, GetPc.timerClear)
  | GetPc.timerClear =>
    some ({ s with f := { s.f with funcReturned := [] } }, GetPc.ret [] (some Error.timedout))
  | GetPc.doneStage =>
    some ({ s with f := { s.f with stage := FutureStage.COMPLETED } }, GetPc.doneRet)
  | GetPc.doneRet => some (s, GetPc.ret s.f.funcReturned none)
  | GetPc.ret _ _ => none

/-- One atomic step of `Cancel`. -/
def Sys.stepCancel (s : Sys) : CancelPc → Option (Sys × CancelPc)
  | CancelPc.check =>
    if s.f.stage = FutureStage.COMPLETED then some (s, CancelPc.ret false)
    else some (s, CancelPc.abort)
  | CancelPc.abort =>
    (s.f.abortOnceDo).map fun f1 => ({ s with f := f1 }, CancelPc.setStage)
  | CancelPc.setStage =>
    some ({ s with f := { s.f with stage := FutureStage.ABORTED } }, CancelPc.ret true)
  | CancelPc.ret _ => none

/-- One atomic step of a goroutine inside a method of the future. -/
def Sys.stepCaller (s : Sys) (c : SelectCase) : Goroutine → Option (Sys × Goroutine)
  | Goroutine.Execute pc => (s.stepExecute pc).map fun r => (r.1, Goroutine.Execute r.2)
  | Goroutine.Get t pc => (s.stepGet t c pc).map fun r => (r.1, Goroutine.Get t r.2)
  | Goroutine.Cancel pc => (s.stepCancel pc).map fun r => (r.1, Goroutine.Cancel r.2)

/-- One atomic step of a pool worker inside `executeTarget`.  Closing `rC` a second time
panics: this step is `none`. -/
def Sys.stepWorker (s : Sys) : WorkerPc → Option (Sys × WorkerPc)
  | WorkerPc.lenCheck =>
    if s.f.aC.length ≠ 0 then some (s, WorkerPc.close) else some (s, WorkerPc.setRunning)
  | WorkerPc.setRunning =>
    some ({ s with f := { s.f with stage := FutureStage.RUNNING } }, WorkerPc.callTarget)
  | WorkerPc.callTarget =>
    some ({ s with calls := s.calls ++ [s.f.paramsPassed] }, WorkerPc.inTarget)
  | WorkerPc.inTarget => some (s, WorkerPc.setInvoked s.f.callTarget)
  | WorkerPc.setInvoked returned =>
    some ({ s with f := { s.f with stage := FutureStage.TARGET_INVOKED } },
      WorkerPc.append returned)
  | WorkerPc.append [] => some (s, WorkerPc.close)
  | WorkerPc.append (r :: rest) =>
    some ({ s with f := { s.f with funcReturned := s.f.funcReturned ++ [r] } },
      WorkerPc.append rest)
  | WorkerPc.close =>
    if s.f.rC then none else some ({ s with f := { s.f with rC := true } }, WorkerPc.done)
  | WorkerPc.done => none

/-- What the scheduler can do next: let a goroutine enter a method of the future, let a
pool worker take a task from the queue, let goroutine `tid` or worker `wid` do one step. -/
inductive Action
  | callExecute
  | callGet (timeout : Int)
  | callCancel
  | dequeue
  | step (tid : Nat) (c : SelectCase)
  | work (wid : Nat)
  deriving DecidableEq, Repr

/-- The effect of one action; `none` when the action is not enabled. -/
def Sys.exec (s : Sys) : Action → Option Sys
  | Action.callExecute =>
    some { s with callers := s.callers ++ [Goroutine.Execute ExecutePc.check] }
  | Action.callGet t =>
    some { s with callers := s.callers ++ [Goroutine.Get t GetPc.check] }
  | Action.callCancel =>
    some { s with callers := s.callers ++ [Goroutine.Cancel CancelPc.check] }
  | Action.dequeue =>
    if s.tasksQueue = 0 then none
    else some { s with tasksQueue := s.tasksQueue - 1, workers := s.workers ++ [WorkerPc.lenCheck] }
  | Action.step tid c =>
    match s.callers[tid]? with
    | none => none
    | some g =>
      match s.stepCaller c g with
      | none => none
      | some (s1, g1) => some { s1 with callers := s1.callers.set tid g1 }
  | Action.work wid =>
    match s.workers[wid]? with
    | none => none
    | some w =>
      match s.stepWorker w with
      | none => none
      | some (s1, w1) => some { s1 with workers := s1.workers.set wid w1 }

/-- A schedule: the actions are done in order, all of them enabled. -/
def Sys.run (s : Sys) : List Action → Option Sys
  | [] => some s
  | a :: rest =>
    match s.exec a with
    | none => none
    | some s1 => s1.run rest

end Workflow

namespace Workflow

/-! ## Predicates on worlds and schedules -/

/-- The goroutine has returned from its method. -/
def Goroutine.returned : Goroutine → Bool
  | Goroutine.Execute ExecutePc.ret => true
  | Goroutine.Get _ (GetPc.ret _ _) => true
  | Goroutine.Cancel (CancelPc.ret _) => true
  | _ => false

/-- The worker has left `executeTarget`. -/
def WorkerPc.finished : WorkerPc → Bool
  | WorkerPc.done => true
  | _ => false

/-- The worker has not yet called the target. -/
def WorkerPc.beforeCall : WorkerPc → Bool
  | WorkerPc.lenCheck => true
  | WorkerPc.setRunning => true
  | WorkerPc.callTarget => true
  | _ => false

/-- The worker has called the target and has not reached the deferred `close`. -/
def WorkerPc.afterCall : WorkerPc → Bool
  | WorkerPc.inTarget => true
  | WorkerPc.setInvoked _ => true
  | WorkerPc.append _ => true
  | _ => false

/-- Nothing is left to do: no queued task, every worker and every goroutine has returned. -/
def Sys.quiescent (s : Sys) : Bool :=
  s.tasksQueue == 0 && s.workers.all WorkerPc.finished && s.callers.all Goroutine.returned

/-- The action lets a new goroutine enter a method of the future. -/
def Action.isCall : Action → Bool
  | Action.callExecute => true
  | Action.callGet _ => true
  | Action.callCancel => true
  | _ => false

/-- The action is not a call of `Get` or `Cancel`: a call of `Execute`, or a step of a
goroutine or of the pool. -/
def Action.executeOnly : Action → Bool
  | Action.callGet _ => false
  | Action.callCancel => false
  | _ => true

/-- Steps the goroutine still has to do inside `Execute` (an upper bound). -/
def ExecutePc.remaining : ExecutePc → Nat
  | ExecutePc.check => 3
  | ExecutePc.submit => 2
  | ExecutePc.setStage => 1
  | ExecutePc.ret => 0

/-- Steps the goroutine still has to do inside `Get` (an upper bound). -/
def GetPc.remaining : GetPc → Nat
  | GetPc.check => 5
  | GetPc.select => 4
  | GetPc.abortClear => 1
  | GetPc.timerAbort => 2
  | GetPc.timerClear => 1
  | GetPc.doneStage => 2
  | GetPc.doneRet => 1
  | GetPc.ret _ _ => 0

/-- Steps the goroutine still has to do inside `Cancel` (an upper bound). -/
def CancelPc.remaining : CancelPc → Nat
  | CancelPc.check => 3
  | CancelPc.abort => 2
  | CancelPc.setStage => 1
  | CancelPc.ret _ => 0

/-- Steps the goroutine still has to do (an upper bound). -/
def Goroutine.remaining : Goroutine → Nat
  | Goroutine.Execute pc => pc.remaining
  | Goroutine.Get _ pc => pc.remaining
  | Goroutine.Cancel pc => pc.remaining

/-- Steps a worker still has to do inside `executeTarget` when the target returns `n`
values (an upper bound). -/
def WorkerPc.remaining (n : Nat) : WorkerPc → Nat
  | WorkerPc.lenCheck => n + 7
  | WorkerPc.setRunning => n + 6
  | WorkerPc.callTarget => n + 5
  | WorkerPc.inTarget => n + 4
  | WorkerPc.setInvoked returned => returned.length + 3
  | WorkerPc.append rest => rest.length + 2
  | WorkerPc.close => 1
  | WorkerPc.done => 0

/-- Steps left in the whole world when no new call is made (an upper bound): those of the
goroutines, those of the task that `runOnce` may still submit, those of the queued tasks and
those of the workers. -/
def Sys.remaining (s : Sys) : Nat :=
  (s.callers.map Goroutine.remaining).sum
    + (if s.f.runOnce then 0 else s.f.callTarget.length + 8)
    + s.tasksQueue * (s.f.callTarget.length + 8)
    + (s.workers.map (WorkerPc.remaining s.f.callTarget.length)).sum

/-- What holds in every world reachable from `RunAsync`: `Submit` ran iff `runOnce` did, the
submitted task is in the queue or with a worker, the abort buffer holds at most the one
signal sent under `abortOnce`, `rC` is closed exactly when the worker is done, and the target
was called at most once, with `paramsPassed`. -/
structure Sys.Inv (s : Sys) : Prop where
  submits_eq : s.submits = if s.f.runOnce then 1 else 0
  queue_workers : s.tasksQueue + s.workers.length = s.submits
  aC_once : s.f.abortOnce = false → s.f.aC = []
  aC_le : s.f.aC.length ≤ 1
  rC_iff : ∀ w ∈ s.workers, (s.f.rC = true ↔ w = WorkerPc.done)
  rC_none : s.workers = [] → s.f.rC = false
  calls_pre : ∀ w ∈ s.workers, w.beforeCall = true → s.calls = []
  calls_in : ∀ w ∈ s.workers, w.afterCall = true → s.calls = [s.f.paramsPassed]
  calls_le : s.calls = [] ∨ s.calls = [s.f.paramsPassed]
  calls_none : s.workers = [] → s.calls = []

/-- What holds in addition when only `Execute` is ever called: no abort signal was sent,
every goroutine is inside `Execute`, one that passed `Submit` left `runOnce` set, one that
returned left a stage other than `NOT_STARTED`, and a worker that reached `close` has called
the target. -/
structure Sys.ExecInv (s : Sys) : Prop where
  no_abort : s.f.abortOnce = false
  only_execute : ∀ g ∈ s.callers, ∃ pc, g = Goroutine.Execute pc
  passed_submit : ∀ g ∈ s.callers, g = Goroutine.Execute ExecutePc.setStage → s.f.runOnce = true
  returned_stage : ∀ g ∈ s.callers, g = Goroutine.Execute ExecutePc.ret →
    s.f.stage ≠ FutureStage.NOT_STARTED
  stage_once : s.f.stage ≠ FutureStage.NOT_STARTED → s.f.runOnce = true
  closed_called : ∀ w ∈ s.workers, w = WorkerPc.close ∨ w = WorkerPc.done →
    s.calls = [s.f.paramsPassed]

/-! ## Example targets -/

/-- The target of `TestFuture_Cancel` and `TestFuture_Get_TimeOut`: `func() bool`, which
returns `true`. -/
def boolTarget : Target :=
  { kind := Kind.Func
    numIn := 0
    isVariadic := false
    numOut := 1
    zeroIn := fun _ => Val.nil
    call := fun _ => [Val.bool true] }

/-- A target that is not a function: an `int`. -/
def intTarget : Target :=
  { kind := Kind.Int
    numIn := 0
    isVariadic := false
    numOut := 0
    zeroIn := fun _ => Val.nil
    call := fun _ => [] }

/-- The future `RunAsync(func() bool, no arguments)` returns. -/
def boolFuture : Future :=
  { newFuture boolTarget with paramsPassed := [], voidReturn := false }

end Workflow

namespace Workflow

end Workflow

namespace Workflow

/-! ## Worlds around Cancel -/

/-- `Execute` returns, a `Get(0)` passes its stage test and waits in the `select`, `Cancel`
runs from its first statement to its return, the waiting `Get` receives the abort signal and
returns.  No pool worker has taken the task yet. -/
def cancelWhileGetWaits : List Action :=
  [Action.callExecute, Action.step 0 SelectCase.done, Action.step 0 SelectCase.done,
   Action.step 0 SelectCase.done,
   Action.callGet 0, Action.step 1 SelectCase.done,
   Action.callCancel, Action.step 2 SelectCase.done, Action.step 2 SelectCase.done,
   Action.step 2 SelectCase.done,
   Action.step 1 SelectCase.abort, Action.step 1 SelectCase.done]

/-- The world `cancelWhileGetWaits` leads to from `RunAsync(func() bool)`. -/
def cancelledWithTaskQueued : Sys :=
  { f := { boolFuture with
      runOnce := true, abortOnce := true, aC := [], stage := FutureStage.ABORTED }
    tasksQueue := 1
    workers := []
    callers := [Goroutine.Execute ExecutePc.ret,
      Goroutine.Get 0 (GetPc.ret [] (some Error.aborted)),
      Goroutine.Cancel (CancelPc.ret true)]
    submits := 1
    calls := [] }

/-- A pool worker takes the task and runs `executeTarget` to its end, then `Get(0)` is
called and runs to its return. -/
def workerThenGet : List Action :=
  [Action.dequeue,
   Action.work 0, Action.work 0, Action.work 0, Action.work 0, Action.work 0, Action.work 0,
   Action.work 0, Action.work 0,
   Action.callGet 0, Action.step 3 SelectCase.done, Action.step 3 SelectCase.done,
   Action.step 3 SelectCase.done, Action.step 3 SelectCase.done]

/-- The world `workerThenGet` leads to from `cancelledWithTaskQueued`. -/
def cancelledButRun : Sys :=
  { f := { boolFuture with
      funcReturned := [Val.bool true], rC := true,
      runOnce := true, abortOnce := true, aC := [], stage := FutureStage.COMPLETED }
    tasksQueue := 0
    workers := [WorkerPc.done]
    callers := [Goroutine.Execute ExecutePc.ret,
      Goroutine.Get 0 (GetPc.ret [] (some Error.aborted)),
      Goroutine.Cancel (CancelPc.ret true),
      Goroutine.Get 0 (GetPc.ret [Val.bool true] none)]
    submits := 1
    calls := [[]] }

/-- `Execute` returns, a pool worker takes the task and calls the target, which is still
running when the timer of `Get(5)` fires; that `Get` returns.  A second `Get(0)` receives the
abort signal and returns. -/
def timeoutWhileRunning : List Action :=
  [Action.callExecute, Action.step 0 SelectCase.done, Action.step 0 SelectCase.done,
   Action.step 0 SelectCase.done,
   Action.dequeue, Action.work 0, Action.work 0, Action.work 0,
   Action.callGet 5, Action.step 1 SelectCase.done, Action.step 1 SelectCase.timer,
   Action.step 1 SelectCase.done, Action.step 1 SelectCase.done,
   Action.callGet 0, Action.step 2 SelectCase.done, Action.step 2 SelectCase.abort,
   Action.step 2 SelectCase.done]

/-- The world `timeoutWhileRunning` leads to from `RunAsync(func() bool)`. -/
def timedOutWhileRunning : Sys :=
  { f := { boolFuture with
      runOnce := true, abortOnce := true, aC := [], stage := FutureStage.RUNNING }
    tasksQueue := 0
    workers := [WorkerPc.inTarget]
    callers := [Goroutine.Execute ExecutePc.ret,
      Goroutine.Get 5 (GetPc.ret [] (some Error.timedout)),
      Goroutine.Get 0 (GetPc.ret [] (some Error.aborted))]
    submits := 1
    calls := [[]] }

/-- The target returns, the worker finishes `executeTarget`, and a third `Get(0)` is called
and runs to its return. -/
def targetReturnsThenGet : List Action :=
  [Action.work 0, Action.work 0, Action.work 0, Action.work 0, Action.work 0,
   Action.callGet 0, Action.step 3 SelectCase.done, Action.step 3 SelectCase.done,
   Action.step 3 SelectCase.done, Action.step 3 SelectCase.done]

/-- The world `targetReturnsThenGet` leads to from `timedOutWhileRunning`. -/
def timedOutButCompleted : Sys :=
  { f := { boolFuture with
      funcReturned := [Val.bool true], rC := true,
      runOnce := true, abortOnce := true, aC := [], stage := FutureStage.COMPLETED }
    tasksQueue := 0
    workers := [WorkerPc.done]
    callers := [Goroutine.Execute ExecutePc.ret,
      Goroutine.Get 5 (GetPc.ret [] (some Error.timedout)),
      Goroutine.Get 0 (GetPc.ret [] (some Error.aborted)),
      Goroutine.Get 0 (GetPc.ret [Val.bool true] none)]
    submits := 1
    calls := [[]] }

/-- The world after `Cancel` was called on `submittedWorld` and returned. -/
def submittedWorldCancelled : Sys :=
  { f := { boolFuture with
      runOnce := true, abortOnce := true, aC := [Error.aborted],
      stage := FutureStage.ABORTED }
    tasksQueue := 1
    workers := []
    callers := [Goroutine.Execute ExecutePc.ret, Goroutine.Cancel (CancelPc.ret true)]
    submits := 1
    calls := [] }

end Workflow

namespace Workflow

/-! ## Calls taken as a whole -/

/-- The goroutine runs on alone until it has returned from its method, in at most `fuel`
steps; `none` when a step is not enabled (the `select` has no ready case). -/
def Sys.finish (c : SelectCase) : Nat → Sys → Goroutine → Option (Sys × Goroutine)
  | 0, s, g => if g.returned then some (s, g) else none
  | fuel + 1, s, g =>
    if g.returned then some (s, g)
    else
      match s.stepCaller c g with
      | none => none
      | some (s1, g1) => Sys.finish c fuel s1 g1

/-- A goroutine enters the method at `g` and runs it to its return with no other goroutine
stepping in between; the returned goroutine is recorded in `callers`. -/
def Sys.callWhole (s : Sys) (c : SelectCase) (g : Goroutine) : Option Sys :=
  (Sys.finish c 4 s g).map fun r => { r.1 with callers := r.1.callers ++ [r.2] }

/-- An operation on the future: a whole call of `Execute`, `Get(timeout)` (with the case of
its `select` that fires) or `Cancel`, or one step of the pool. -/
inductive Op
  | Execute
  | Get (timeout : Int) (c : SelectCase)
  | Cancel
  | dequeue
  | work (wid : Nat)
  deriving DecidableEq, Repr

/-- The effect of one operation; `none` when it is not enabled. -/
def Sys.perform (s : Sys) : Op → Option Sys
  | Op.Execute => s.callWhole SelectCase.done (Goroutine.Execute ExecutePc.check)
  | Op.Get t c => s.callWhole c (Goroutine.Get t GetPc.check)
  | Op.Cancel => s.callWhole SelectCase.done (Goroutine.Cancel CancelPc.check)
  | Op.dequeue => s.exec Action.dequeue
  | Op.work wid => s.exec (Action.work wid)

/-- The stage is one of the three after which `Get` returns at its stage test. -/
def FutureStage.terminal : FutureStage → Bool
  | FutureStage.COMPLETED => true
  | FutureStage.ABORTED => true
  | FutureStage.TIMEDOUT => true
  | _ => false

end Workflow

namespace Workflow

/-! ## Flow

`runFlow` runs on one goroutine; the only other goroutines that touch the futures of the
steps are the pool workers that run their tasks (`Flow.Cancel` and the timeout of `Flow.Get`
are not part of this model, so no abort signal is ever sent to a step future).  `sched i`
says when the pool runs the task of step `i`: as soon as it is submitted, or only when
`Get(0)` waits for it.
-/

/-- The struct `step`. -/
structure step where
  targetFunc : Target
  paramsPassed : List Val
  funcReturned : List Val
  voidReturn : Bool
  op : OpType
  future : Option Sys

/-- The struct `Flow`; `future` is the master future, `runOnce` is true once the
`sync.Once` has run. -/
structure Flow where
  steps : List step
  future : Option Sys
  runOnce : Bool
  es : ExecutorService

/-- The assignment `stp.future = ftr`. -/
def step.setFuture (stp : step) (ftr : Sys) : step :=
  { stp with future := some ftr }

def Flow.SetExecutor (fl : Flow) (customExecutor : ExecutorService) : Flow :=
  { fl with es := customExecutor }

/-- `NewFlow`: a flow with one `CALL` step, or nil when the target is not a function. -/
def NewFlow (targetFunc : Target) (args : List Val) : Option Flow :=
  match targetFunc.kind with
  | Kind.Func =>
    some
      { steps := [{
          targetFunc := targetFunc
          paramsPassed := args
          funcReturned := []
          voidReturn := targetFunc.numOut == 0
          op := OpType.CALL
          future := none }]
        future := none
        runOnce := false
        es := default_es }
  | _ => none

/-- `AndCall`: appends an `AND` step, or returns nil when the target is not a function. -/
def Flow.AndCall (fl : Flow) (targetFunc : Target) (args : List Val) : Option Flow :=
  match targetFunc.kind with
  | Kind.Func =>
    some { fl with steps := fl.steps ++ [{
      targetFunc := targetFunc
      paramsPassed := args
      funcReturned := []
      voidReturn := targetFunc.numOut == 0
      op := OpType.AND
      future := none }] }
  | _ => none

/-- `ThenCombine`: appends a `COMBINE` step, or returns nil when the target is not a
function. -/
def Flow.ThenCombine (fl : Flow) (targetFunc : Target) : Option Flow :=
  match targetFunc.kind with
  | Kind.Func =>
    some { fl with steps := fl.steps ++ [{
      targetFunc := targetFunc
      paramsPassed := []
      funcReturned := []
      voidReturn := targetFunc.numOut == 0
      op := OpType.COMBINE
      future := none }] }
  | _ => none

/-- `ThenApply`: appends an `APPLY` step, or returns nil when the target is not a
function. -/
def Flow.ThenApply (fl : Flow) (targetFunc : Target) : Option Flow :=
  match targetFunc.kind with
  | Kind.Func =>
    some { fl with steps := fl.steps ++ [{
      targetFunc := targetFunc
      paramsPassed := []
      funcReturned := []
      voidReturn := targetFunc.numOut == 0
      op := OpType.APPLY
      future := none }] }
  | _ => none

/-- What `callTarget` returns for the target with these arguments bound. -/
def Target.results (targetFunc : Target) (args : List Val) : List Val :=
  Future.callTarget { newFuture targetFunc with paramsPassed := args }

/-- The pool worker `0` runs on alone until it has left `executeTarget`, in at most `fuel`
steps. -/
def Sys.workAll : Nat → Sys → Option Sys
  | 0, s => if s.workers.all WorkerPc.finished then some s else none
  | fuel + 1, s =>
    if s.workers.all WorkerPc.finished then some s
    else
      match s.perform (Op.work 0) with
      | none => none
      | some s1 => Sys.workAll fuel s1

/-- The pool gets to the task of the future, if it is still queued, and runs it to its
end. -/
def Sys.poolRuns (s : Sys) : Option Sys :=
  if s.tasksQueue = 0 then s.workAll (s.f.callTarget.length + 7)
  else
    match s.perform Op.dequeue with
    | none => none
    | some s1 => s1.workAll (s.f.callTarget.length + 7)

/-- A whole call of `Get(timeout)` with its two results. -/
def Sys.GetWhole (s : Sys) (timeout : Int) (c : SelectCase) :
    Option (Sys × List Val × Option Error) :=
  match Sys.finish c 4 s (Goroutine.Get timeout GetPc.check) with
  | some (s1, Goroutine.Get t (GetPc.ret vals err)) =>
    some ({ s1 with callers := s1.callers ++ [Goroutine.Get t (GetPc.ret vals err)] },
      vals, err)
  | _ => none

/-- `Get(0)` as `runFlow` and `Flow.Get` call it: on a terminal stage it returns at once;
otherwise it waits in the `select`, where only the completion case can fire, so it returns
once the pool has run the task.  `none` when it waits for ever. -/
def Sys.Get0 (s : Sys) : Option (Sys × List Val × Option Error) :=
  if s.f.stage.terminal then s.GetWhole 0 SelectCase.done
  else
    match s.poolRuns with
    | none => none
    | some s1 => s1.GetWhole 0 SelectCase.done

/-- What the scheduling loop and the pool do to the steps, in order: `created i args`, the
future of step `i` was made by `RunAsync` with `args` and executed; `invoked i args`, a pool
worker called the target of step `i`, `args` being the `paramsPassed` of its future;
`waited p vals`, `Get(0)` on the future of step `p` returned `vals` and no error. -/
inductive Event
  | created (i : Nat) (args : List Val)
  | invoked (i : Nat) (args : List Val)
  | waited (p : Nat) (vals : List Val)

/-- Why the scheduling loop was left early: a `return nil, err`, a run-time panic (index out
of range, nil future), or a wait that never ends. -/
inductive Stop
  | returned (err : Error)
  | panicked
  | blocked

/-- The state of `runFlow`: the steps with the futures stored so far, the events so far, and
the reason for leaving if the loop was left. -/
structure FlowRun where
  steps : List step
  log : List Event
  stop : Option Stop

/-- `RunAsync(currentStp.targetFunc, args...)`, then on success
`currentStp.future = ftr; ftr.SetExecutor(fl.es).Execute()`; on failure the step error is
returned. -/
def FlowRun.launch (es : ExecutorService) (sched : Nat → Bool) (r : FlowRun) (i : Nat)
    (currentStp : step) (args : List Val) : FlowRun :=
  match RunAsync currentStp.targetFunc args with
  | Except.error err =>
    { r with stop := some (Stop.returned (Error.stepFailed i currentStp.op err)) }
  | Except.ok ftr =>
    match (Sys.new (ftr.SetExecutor es)).perform Op.Execute with
    | none => { r with stop := some Stop.blocked }
    | some s1 =>
      if sched i then
        match s1.poolRuns with
        | none => { r with stop := some Stop.blocked }
        | some s2 =>
          { r with
            steps := r.steps.set i (currentStp.setFuture s2)
            log := r.log ++ [Event.created i args] ++ s2.calls.map (Event.invoked i) }
      else
        { r with
          steps := r.steps.set i (currentStp.setFuture s1)
          log := r.log ++ [Event.created i args] }

/-- `fl.steps[p].future.Get(0)`: the values on success; on an error the step error is
returned from `runFlow`. -/
def FlowRun.await (r : FlowRun) (p : Nat) : FlowRun × List Val :=
  match r.steps[p]? with
  | none => ({ r with stop := some Stop.panicked }, [])
  | some stp =>
    match stp.future with
    | none => ({ r with stop := some Stop.panicked }, [])
    | some s =>
      match s.Get0 with
      | none => ({ r with stop := some Stop.blocked }, [])
      | some (s1, _, some err) =>
        ({ r with
          steps := r.steps.set p (stp.setFuture s1)
          log := r.log ++ (s1.calls.drop s.calls.length).map (Event.invoked p)
          stop := some (Stop.returned (Error.stepFailed p stp.op err)) }, [])
      | some (s1, vals, none) =>
        ({ r with
          steps := r.steps.set p (stp.setFuture s1)
          log := r.log ++ (s1.calls.drop s.calls.length).map (Event.invoked p)
            ++ [Event.waited p vals] }, vals)

/-- The first loop of the `COMBINE` case: `start` is the last `p < i` whose step is `APPLY`
or `COMBINE`, or 0. -/
def combineStart (steps : List step) (i : Nat) : Nat :=
  (List.range i).foldl (fun start p =>
    match steps[p]? with
    | some stp => if stp.op = OpType.APPLY ∨ stp.op = OpType.COMBINE then p else start
    | none => start) 0

/-- The second loop of the `COMBINE` case: `Get(0)` on the futures of the steps `ps` in
order, appending the values to `allResponses`; left at the first error. -/
def FlowRun.awaitAll (r : FlowRun) : List Nat → List Val → FlowRun × List Val
  | [], allResponses => (r, allResponses)
  | p :: ps, allResponses =>
    match r.await p with
    | (r1, vals) =>
      if r1.stop.isSome then (r1, allResponses)
      else FlowRun.awaitAll r1 ps (allResponses ++ vals)

/-- One iteration of the loop of `runFlow`, for step `i`. -/
def FlowRun.iteration (es : ExecutorService) (sched : Nat → Bool) (r : FlowRun) (i : Nat) :
    FlowRun :=
  if r.stop.isSome then r
  else
    match r.steps[i]? with
    | none => { r with stop := some Stop.panicked }
    | some currentStp =>
      match currentStp.op with
      | OpType.CALL => r.launch es sched i currentStp currentStp.paramsPassed
      | OpType.AND => r.launch es sched i currentStp currentStp.paramsPassed
      | OpType.APPLY =>
        if i = 0 then { r with stop := some Stop.panicked }
        else
          match r.await (i - 1) with
          | (r1, stepOutput) =>
            if r1.stop.isSome then r1 else r1.launch es sched i currentStp stepOutput
      | OpType.COMBINE =>
        match r.awaitAll (List.range' (combineStart r.steps i) (i - combineStart r.steps i)) []
        with
        | (r1, allResponses) =>
          if r1.stop.isSome then r1 else r1.launch es sched i currentStp allResponses

/-- The loop of `runFlow` over the first `n` steps. -/
def FlowRun.loop (es : ExecutorService) (sched : Nat → Bool) (r : FlowRun) (n : Nat) :
    FlowRun :=
  (List.range n).foldl (FlowRun.iteration es sched) r

/-- How `runFlow` ends: it returns its two results, or it panics, or it never returns. -/
inductive Outcome
  | returned (flowReturn : List Val) (flowError : Option Error)
  | panicked
  | blocked

/-- `runFlow`: the loop over the steps, then `Get(0)` on the future of the last step. -/
def Flow.runFlow (fl : Flow) (sched : Nat → Bool) : FlowRun × Outcome :=
  match FlowRun.loop fl.es sched { steps := fl.steps, log := [], stop := none }
    fl.steps.length with
  | r =>
    match r.stop with
    | some (Stop.returned err) => (r, Outcome.returned [] (some err))
    | some Stop.panicked => (r, Outcome.panicked)
    | some Stop.blocked => (r, Outcome.blocked)
    | none =>
      if fl.steps.length = 0 then (r, Outcome.panicked)
      else
        match r.steps[fl.steps.length - 1]? with
        | none => (r, Outcome.panicked)
        | some last =>
          match last.future with
          | none => (r, Outcome.returned [] (some Error.flowAborted))
          | some s =>
            match s.Get0 with
            | none => (r, Outcome.blocked)
            | some (s1, vals, err) =>
              ({ r with
                steps := r.steps.set (fl.steps.length - 1) (last.setFuture s1)
                log := r.log
                  ++ (s1.calls.drop s.calls.length).map (Event.invoked (fl.steps.length - 1))
                  ++ (match err with
                    | none => [Event.waited (fl.steps.length - 1) vals]
                    | some _ => []) },
                Outcome.returned vals err)

/-- The method value `fl.runFlow` as a target: no parameter, two results, the slice and the
error. -/
def Flow.runFlowTarget (fl : Flow) (sched : Nat → Bool) : Target :=
  { kind := Kind.Func
    numIn := 0
    isVariadic := false
    numOut := 2
    zeroIn := fun _ => Val.nil
    call := fun _ =>
      match (fl.runFlow sched).2 with
      | Outcome.returned flowReturn none => [Val.slice flowReturn, Val.nil]
      | Outcome.returned flowReturn (some err) => [Val.slice flowReturn, Val.err err]
      | _ => [] }

/-- `Flow.Execute`: under `runOnce`, the master future is made from `fl.runFlow` and
executed. -/
def Flow.Execute (fl : Flow) (sched : Nat → Bool) : Flow :=
  if fl.runOnce then fl
  else
    match RunAsync (fl.runFlowTarget sched) [] with
    | Except.error _ => { fl with runOnce := true }
    | Except.ok flowFtr =>
      match (Sys.new (flowFtr.SetExecutor fl.es)).perform Op.Execute with
      | none => { fl with runOnce := true }
      | some s => { fl with runOnce := true, future := some s }

/-- `Flow.Get(0)` (a timeout that is not positive, so no deferred cancel is scheduled):
`Get` on the master future, then the two values of `runFlow` are unwrapped.  `none` when it
does not return: `runFlow` panicked or waits for ever, or a type assertion fails. -/
def Flow.Get0 (fl : Flow) (sched : Nat → Bool) : Option (Flow × List Val × Option Error) :=
  match fl.future with
  | none => some (fl, [], some Error.futureNotCreated)
  | some s =>
    match (fl.runFlow sched).2 with
    | Outcome.panicked => none
    | Outcome.blocked => none
    | Outcome.returned _ _ =>
      match s.Get0 with
      | none => none
      | some (s1, _, some e) => some ({ fl with future := some s1 }, [], some e)
      | some (s1, get, none) =>
        match get with
        | [Val.slice flowReturn, Val.nil] =>
          some ({ fl with future := some s1 }, flowReturn, none)
        | [_, Val.err e] => some ({ fl with future := some s1 }, [], some e)
        | _ => none

end Workflow

namespace Workflow

/-! ## The worlds of a step future -/

/-- The future `RunAsync` returns for a function target. -/
def Future.made (targetFunc : Target) (args : List Val) : Future :=
  { newFuture targetFunc with
    paramsPassed := args
    voidReturn := targetFunc.numOut == 0 }

/-- The world of a step future after `SetExecutor(es).Execute()`: the task is queued. -/
def Sys.childSubmitted (es : ExecutorService) (targetFunc : Target) (args : List Val) : Sys :=
  { f := { Future.made targetFunc args with
      es := es, runOnce := true, stage := FutureStage.SUBMITTED }
    tasksQueue := 1
    workers := []
    callers := [Goroutine.Execute ExecutePc.ret]
    submits := 1
    calls := [] }

/-- The world of a step future while a pool worker runs its task, before any result is
captured. -/
def Sys.childRunning (es : ExecutorService) (targetFunc : Target) (args : List Val)
    (stage : FutureStage) (w : WorkerPc) (calls : List (List Val)) : Sys :=
  { f := { Future.made targetFunc args with es := es, runOnce := true, stage := stage }
    tasksQueue := 0
    workers := [w]
    callers := [Goroutine.Execute ExecutePc.ret]
    submits := 1
    calls := calls }

/-- The world of a step future once the pool has run its task: the results are captured and
`rC` is closed. -/
def Sys.childFinished (es : ExecutorService) (targetFunc : Target) (args : List Val) : Sys :=
  { f := { Future.made targetFunc args with
      es := es, runOnce := true, stage := FutureStage.TARGET_INVOKED
      funcReturned := targetFunc.results args, rC := true }
    tasksQueue := 0
    workers := [WorkerPc.done]
    callers := [Goroutine.Execute ExecutePc.ret]
    submits := 1
    calls := [args] }

/-- The world of a step future after `Get(0)` returned its results. -/
def Sys.childCompleted (es : ExecutorService) (targetFunc : Target) (args : List Val) : Sys :=
  { f := { Future.made targetFunc args with
      es := es, runOnce := true, stage := FutureStage.COMPLETED
      funcReturned := targetFunc.results args, rC := true }
    tasksQueue := 0
    workers := [WorkerPc.done]
    callers := [Goroutine.Execute ExecutePc.ret,
      Goroutine.Get 0 (GetPc.ret (targetFunc.results args) none)]
    submits := 1
    calls := [args] }

/-- The world of a step future right after it was launched under the schedule `sched`. -/
def Sys.childLaunched (es : ExecutorService) (eager : Bool) (targetFunc : Target)
    (args : List Val) : Sys :=
  if eager then Sys.childFinished es targetFunc args
  else Sys.childSubmitted es targetFunc args

end Workflow

namespace Workflow

/-- The step a builder call appends: the target, the arguments, the operator, no future. -/
def step.declared (op : OpType) (targetFunc : Target) (args : List Val) : step :=
  { targetFunc := targetFunc
    paramsPassed := args
    funcReturned := []
    voidReturn := targetFunc.numOut == 0
    op := op
    future := none }

/-- `func() int { return 1 }`, the first two targets of `TestFlow_ThenCombine`. -/
def oneTarget : Target :=
  { kind := Kind.Func
    numIn := 0
    isVariadic := false
    numOut := 1
    zeroIn := fun _ => Val.nil
    call := fun _ => [Val.int 1] }

/-- `func(op1, op2 int) int { return op1 + op2 }`, the last target of
`TestFlow_ThenCombine`. -/
def addTarget : Target :=
  { kind := Kind.Func
    numIn := 2
    isVariadic := false
    numOut := 1
    zeroIn := fun _ => Val.int 0
    call := fun vs =>
      match vs with
      | [Val.int op1, Val.int op2] => [Val.int (op1 + op2)]
      | _ => [] }

/-- The flow of `TestFlow_ThenCombine` after `NewFlow`. -/
def combineFlow0 : Flow :=
  { steps := [step.declared OpType.CALL oneTarget []]
    future := none
    runOnce := false
    es := default_es }

end Workflow

namespace Workflow

/-- What holds of the state of `runFlow` at every point of the loop, `steps0` being the
declared steps: the steps keep their target, arguments and operator; while the loop has
not been left, every stored future was made by the loop and is launched or completed; every
wait logged returned what the target of its step returns on the arguments its future was
created with; and the future of a `COMBINE` step was created with the values of the waits
for the steps from `combineStart` on, joined in order. -/
structure FlowRun.Sound (es : ExecutorService) (steps0 : List step) (r : FlowRun) : Prop where
  length_eq : r.steps.length = steps0.length
  static : ∀ (p : Nat) (st : step), r.steps[p]? = some st → ∃ st0, steps0[p]? = some st0 ∧
    st.targetFunc = st0.targetFunc ∧ st.paramsPassed = st0.paramsPassed ∧ st.op = st0.op
  futures : r.stop = none → ∀ (p : Nat) (st : step) (s : Sys), r.steps[p]? = some st → st.future = some s →
    ∃ a, Event.created p a ∈ r.log ∧
      ((∃ eager, s = Sys.childLaunched es eager st.targetFunc a) ∨
        s = Sys.childCompleted es st.targetFunc a)
  waited_ok : ∀ (p : Nat) (vals : List Val), Event.waited p vals ∈ r.log → ∃ st0 a, steps0[p]? = some st0 ∧
    Event.created p a ∈ r.log ∧ vals = st0.targetFunc.results a
  combine_ok : ∀ (i : Nat) (a : List Val) (st0 : step), Event.created i a ∈ r.log → steps0[i]? = some st0 →
    st0.op = OpType.COMBINE →
    ∃ rs : List (List Val), rs.length = i - combineStart steps0 i ∧ a = rs.flatten ∧
      ∀ (j : Nat) (vals : List Val), rs[j]? = some vals → Event.waited (combineStart steps0 i + j) vals ∈ r.log

/-- The start of the collected run as the specification words it: the index just after the
most recent `APPLY` or `COMBINE` step before `i`, or 0 when there is none. -/
def combineStartAsSpecified (steps : List step) (i : Nat) : Nat :=
  (List.range i).foldl (fun start p =>
    match steps[p]? with
    | some stp => if stp.op = OpType.APPLY ∨ stp.op = OpType.COMBINE then p + 1 else start
    | none => start) 0

/-- `func() int { return 100 }`. -/
def hundredTarget : Target :=
  { kind := Kind.Func
    numIn := 0
    isVariadic := false
    numOut := 1
    zeroIn := fun _ => Val.nil
    call := fun _ => [Val.int 100] }

/-- `func() int { return 60 }`. -/
def sixtyTarget : Target :=
  { kind := Kind.Func
    numIn := 0
    isVariadic := false
    numOut := 1
    zeroIn := fun _ => Val.nil
    call := fun _ => [Val.int 60] }

/-- `func(n int) int { return 2 * n }`. -/
def doubleTarget : Target :=
  { kind := Kind.Func
    numIn := 1
    isVariadic := false
    numOut := 1
    zeroIn := fun _ => Val.int 0
    call := fun vs =>
      match vs with
      | [Val.int n] => [Val.int (2 * n)]
      | _ => [] }

/-- The flow `NewFlow(hundred).ThenApply(double).AndCall(sixty).ThenCombine(add)`. -/
def chainFlow : Flow :=
  { steps := [step.declared OpType.CALL hundredTarget [],
      step.declared OpType.APPLY doubleTarget [],
      step.declared OpType.AND sixtyTarget [],
      step.declared OpType.COMBINE addTarget []]
    future := none
    runOnce := false
    es := default_es }

end Workflow

namespace Workflow

/-- A builder call on a flow: the method and what it is given. -/
inductive BuilderCall
  | AndCall (targetFunc : Target) (args : List Val)
  | ThenCombine (targetFunc : Target)
  | ThenApply (targetFunc : Target)

/-- The callable given to a builder call. -/
def BuilderCall.targetFunc : BuilderCall → Target
  | BuilderCall.AndCall targetFunc _ => targetFunc
  | BuilderCall.ThenCombine targetFunc => targetFunc
  | BuilderCall.ThenApply targetFunc => targetFunc

/-- One builder call on a flow; `none` is the nil flow. -/
def Flow.thenCall (fl : Flow) : BuilderCall → Option Flow
  | BuilderCall.AndCall targetFunc args => fl.AndCall targetFunc args
  | BuilderCall.ThenCombine targetFunc => fl.ThenCombine targetFunc
  | BuilderCall.ThenApply targetFunc => fl.ThenApply targetFunc

/-- A chain of builder calls on a flow, in order. -/
def Flow.thenCalls (fl : Flow) : List BuilderCall → Option Flow
  | [] => some fl
  | c :: rest =>
    match fl.thenCall c with
    | none => none
    | some fl1 => fl1.thenCalls rest

/-- `NewFlow(targetFunc, args...)` followed by a chain of builder calls. -/
def buildFlow (targetFunc : Target) (args : List Val) (calls : List BuilderCall) :
    Option Flow :=
  match NewFlow targetFunc args with
  | none => none
  | some fl => fl.thenCalls calls

/-- What holds of the state of `runFlow` at the start of iteration `i`, `steps0` being the
declared steps: the step list keeps its length and every step its operator; while the loop
has not been left, every step before `i` has a future; and the loop was not left by a
run-time panic. -/
structure FlowRun.Defined (steps0 : List step) (i : Nat) (r : FlowRun) : Prop where
  length_eq : r.steps.length = steps0.length
  ops : ∀ (p : Nat) (st : step), r.steps[p]? = some st →
    ∃ st0 : step, steps0[p]? = some st0 ∧ st.op = st0.op
  launched : r.stop = none → ∀ (p : Nat), p < i →
    ∃ (st : step) (s : Sys), r.steps[p]? = some st ∧ st.future = some s
  no_panic : r.stop ≠ some Stop.panicked

/-- The flow `NewFlow(one, 5)`: `one` takes no parameter and is given one argument. -/
def oneArgTooManyFlow : Flow :=
  { steps := [step.declared OpType.CALL oneTarget [Val.int 5]]
    future := none
    runOnce := false
    es := default_es }

/-- The flow `NewFlow(one).AndCall(add, 1)`: `add` takes two parameters and is given one
argument. -/
def addOneArgFlow : Flow :=
  { steps := [step.declared OpType.CALL oneTarget [],
      step.declared OpType.AND addTarget [Val.int 1]]
    future := none
    runOnce := false
    es := default_es }

end Workflow

namespace Workflow

/-! ## RunAsync -/

end Workflow

namespace Workflow

/-! ## The invariant of reachable worlds -/

theorem Sys.Inv.congr {s t : Sys} (h : s.Inv)
    (h1 : t.submits = s.submits) (h2 : t.f.runOnce = s.f.runOnce)
    (h3 : t.tasksQueue = s.tasksQueue) (h4 : t.workers = s.workers)
    (h5 : t.f.abortOnce = s.f.abortOnce) (h6 : t.f.aC = s.f.aC) (h7 : t.f.rC = s.f.rC)
    (h8 : t.calls = s.calls) (h9 : t.f.paramsPassed = s.f.paramsPassed) : t.Inv := by
  constructor
  · rw [h1, h2]; exact h.submits_eq
  · rw [h3, h4, h1]; exact h.queue_workers
  · rw [h5, h6]; exact h.aC_once
  · rw [h6]; exact h.aC_le
  · rw [h4, h7]; exact h.rC_iff
  · rw [h4, h7]; exact h.rC_none
  · rw [h4, h8]; exact h.calls_pre
  · rw [h4, h8, h9]; exact h.calls_in
  · rw [h8, h9]; exact h.calls_le
  · rw [h4, h8]; exact h.calls_none

theorem Sys.Inv.workers_le {s : Sys} (h : s.Inv) : s.workers.length ≤ 1 := by
  have h1 := h.submits_eq
  have h2 := h.queue_workers
  split at h1 <;> omega

theorem Sys.Inv.abortOnceDo {s : Sys} (h : s.Inv) :
    ∃ f1, s.f.abortOnceDo = some f1 ∧ f1.abortOnce = true ∧ f1.aC.length ≤ 1 ∧
      f1.runOnce = s.f.runOnce ∧ f1.rC = s.f.rC ∧ f1.paramsPassed = s.f.paramsPassed ∧
      f1.stage = s.f.stage ∧ f1.funcReturned = s.f.funcReturned ∧
      f1.targetFunc = s.f.targetFunc := by
  unfold Future.abortOnceDo
  by_cases hb : s.f.abortOnce = true
  · simp [hb, h.aC_le]
  · have hb1 : s.f.abortOnce = false := by simpa using hb
    have := h.aC_once hb1
    simp [hb1, Future.abort, this]

theorem Sys.Inv.stepCaller {s s1 : Sys} {c : SelectCase} {g g1 : Goroutine} (h : s.Inv)
    (hs : s.stepCaller c g = some (s1, g1)) : s1.Inv := by
  cases g with
  | Execute pc =>
    cases pc <;> simp only [Sys.stepCaller, Sys.stepExecute] at hs
    · split at hs <;> simp at hs <;> (obtain ⟨rfl, -⟩ := hs; exact h)
    · split at hs
      · simp at hs; obtain ⟨rfl, -⟩ := hs; exact h
      · next hr =>
        simp at hs; obtain ⟨rfl, -⟩ := hs
        have hr1 : s.f.runOnce = false := by simpa using hr
        have h0 : s.submits = 0 := by have := h.submits_eq; simpa [hr1] using this
        have hq := h.queue_workers
        have hw : s.workers = [] := by
          apply List.eq_nil_of_length_eq_zero; omega
        constructor <;> simp [h0, hw, h.aC_le, h.rC_none hw, h.calls_none hw]
        · omega
        · exact h.aC_once
    · simp at hs; obtain ⟨rfl, -⟩ := hs
      exact h.congr rfl rfl rfl rfl rfl rfl rfl rfl rfl
    · simp at hs
  | Get t pc =>
    cases pc <;> simp only [Sys.stepCaller, Sys.stepGet] at hs
    · split at hs <;> simp at hs <;> (obtain ⟨rfl, -⟩ := hs; exact h)
    · cases c <;> simp only at hs
      · split at hs
        · simp at hs
        · next e rest haC =>
          simp at hs; obtain ⟨rfl, -⟩ := hs
          have hle := h.aC_le
          rw [haC] at hle
          have hrest : rest = [] := by
            apply List.eq_nil_of_length_eq_zero; simpa using hle
          have hab : s.f.abortOnce = true := by
            by_contra hb
            have := h.aC_once (by simpa using hb)
            rw [haC] at this; simp at this
          constructor <;> simp [hrest, hab]
          · exact h.submits_eq
          · exact h.queue_workers
          · exact h.rC_iff
          · exact h.rC_none
          · exact h.calls_pre
          · exact h.calls_in
          · exact h.calls_le
          · exact h.calls_none
      · split at hs <;> simp at hs; obtain ⟨rfl, -⟩ := hs; exact h
      · split at hs <;> simp at hs; obtain ⟨rfl, -⟩ := hs; exact h
    · simp at hs; obtain ⟨rfl, -⟩ := hs
      exact h.congr rfl rfl rfl rfl rfl rfl rfl rfl rfl
    · obtain ⟨f1, hf1, hb, hle, hr, hc, hp, -⟩ := h.abortOnceDo
      rw [hf1] at hs
      simp at hs; obtain ⟨rfl, -⟩ := hs
      constructor <;> simp [hb, hle, hr, hc, hp]
      · exact h.submits_eq
      · exact h.queue_workers
      · exact h.rC_iff
      · exact h.rC_none
      · exact h.calls_pre
      · exact h.calls_in
      · exact h.calls_le
      · exact h.calls_none
    · simp at hs; obtain ⟨rfl, -⟩ := hs
      exact h.congr rfl rfl rfl rfl rfl rfl rfl rfl rfl
    · simp at hs; obtain ⟨rfl, -⟩ := hs
      exact h.congr rfl rfl rfl rfl rfl rfl rfl rfl rfl
    · simp at hs; obtain ⟨rfl, -⟩ := hs; exact h
    · simp at hs
  | Cancel pc =>
    cases pc <;> simp only [Sys.stepCaller, Sys.stepCancel] at hs
    · split at hs <;> simp at hs <;> (obtain ⟨rfl, -⟩ := hs; exact h)
    · obtain ⟨f1, hf1, hb, hle, hr, hc, hp, -⟩ := h.abortOnceDo
      rw [hf1] at hs
      simp at hs; obtain ⟨rfl, -⟩ := hs
      constructor <;> simp [hb, hle, hr, hc, hp]
      · exact h.submits_eq
      · exact h.queue_workers
      · exact h.rC_iff
      · exact h.rC_none
      · exact h.calls_pre
      · exact h.calls_in
      · exact h.calls_le
      · exact h.calls_none
    · simp at hs; obtain ⟨rfl, -⟩ := hs
      exact h.congr rfl rfl rfl rfl rfl rfl rfl rfl rfl
    · simp at hs

end Workflow

namespace Workflow

theorem List.eq_singleton_of_getElem_some {α : Type} {l : List α} {i : Nat} {a : α}
    (hl : l.length ≤ 1) (h : l[i]? = some a) : l = [a] ∧ i = 0 := by
  match l, hl, h with
  | [b], _, h =>
    cases i with
    | zero => simp at h; exact ⟨by rw [h], rfl⟩
    | succ n => simp at h

theorem Sys.Inv.stepWorker {s s1 : Sys} {wid : Nat} {w w1 : WorkerPc} (h : s.Inv)
    (hw : s.workers[wid]? = some w) (hs : s.stepWorker w = some (s1, w1)) :
    Sys.Inv { s1 with workers := s1.workers.set wid w1 } := by
  obtain ⟨hws, rfl⟩ := List.eq_singleton_of_getElem_some h.workers_le hw
  have hrC := h.rC_iff w (by simp [hws])
  have hpre := h.calls_pre w (by simp [hws])
  have hin := h.calls_in w (by simp [hws])
  have hse := h.submits_eq
  have hqw := h.queue_workers
  have hao := h.aC_once
  have hale := h.aC_le
  have hcl := h.calls_le
  rw [hws] at hqw
  cases w with
  | lenCheck =>
    simp only [Sys.stepWorker] at hs
    split at hs <;> simp at hs <;> obtain ⟨rfl, rfl⟩ := hs <;>
      constructor <;> simp_all [WorkerPc.beforeCall, WorkerPc.afterCall]
  | setRunning =>
    simp only [Sys.stepWorker] at hs
    simp at hs; obtain ⟨rfl, rfl⟩ := hs
    constructor <;> simp_all [WorkerPc.beforeCall, WorkerPc.afterCall]
  | callTarget =>
    simp only [Sys.stepWorker] at hs
    simp at hs; obtain ⟨rfl, rfl⟩ := hs
    constructor <;> simp_all [WorkerPc.beforeCall, WorkerPc.afterCall]
  | inTarget =>
    simp only [Sys.stepWorker] at hs
    simp at hs; obtain ⟨rfl, rfl⟩ := hs
    constructor <;> simp_all [WorkerPc.beforeCall, WorkerPc.afterCall]
  | setInvoked returned =>
    simp only [Sys.stepWorker] at hs
    simp at hs; obtain ⟨rfl, rfl⟩ := hs
    constructor <;> simp_all [WorkerPc.beforeCall, WorkerPc.afterCall]
  | append rest =>
    cases rest with
    | nil =>
      simp only [Sys.stepWorker] at hs
      simp at hs; obtain ⟨rfl, rfl⟩ := hs
      constructor <;> simp_all [WorkerPc.beforeCall, WorkerPc.afterCall]
    | cons r rest =>
      simp only [Sys.stepWorker] at hs
      simp at hs; obtain ⟨rfl, rfl⟩ := hs
      constructor <;> simp_all [WorkerPc.beforeCall, WorkerPc.afterCall]
  | close =>
    simp only [Sys.stepWorker] at hs
    split at hs <;> simp at hs
    obtain ⟨rfl, rfl⟩ := hs
    constructor <;> simp_all [WorkerPc.beforeCall, WorkerPc.afterCall]
  | done => simp [Sys.stepWorker] at hs

theorem Sys.stepCaller_frame {s s1 : Sys} {c : SelectCase} {g g1 : Goroutine}
    (hs : s.stepCaller c g = some (s1, g1)) :
    s1.callers = s.callers ∧ s1.workers = s.workers ∧ s1.calls = s.calls ∧
      s1.f.targetFunc = s.f.targetFunc ∧ s1.f.paramsPassed = s.f.paramsPassed := by
  cases g with
  | Execute pc =>
    cases pc <;> simp only [Sys.stepCaller, Sys.stepExecute] at hs
    · split at hs <;> simp at hs <;> (obtain ⟨rfl, -⟩ := hs; simp)
    · split at hs <;> simp at hs <;> (obtain ⟨rfl, -⟩ := hs; simp)
    · simp at hs; obtain ⟨rfl, -⟩ := hs; simp
    · simp at hs
  | Get t pc =>
    cases pc <;> simp only [Sys.stepCaller, Sys.stepGet] at hs
    · split at hs <;> simp at hs <;> (obtain ⟨rfl, -⟩ := hs; simp)
    · cases c <;> simp only at hs <;> split at hs <;> simp at hs <;>
        (obtain ⟨rfl, -⟩ := hs; simp)
    · simp at hs; obtain ⟨rfl, -⟩ := hs; simp
    · simp only [Future.abortOnceDo, Future.abort] at hs
      split at hs
      · simp at hs; obtain ⟨rfl, -⟩ := hs; simp
      · split at hs <;> simp at hs
        obtain ⟨rfl, -⟩ := hs; simp
    · simp at hs; obtain ⟨rfl, -⟩ := hs; simp
    · simp at hs; obtain ⟨rfl, -⟩ := hs; simp
    · simp at hs; obtain ⟨rfl, -⟩ := hs; simp
    · simp at hs
  | Cancel pc =>
    cases pc <;> simp only [Sys.stepCaller, Sys.stepCancel] at hs
    · split at hs <;> simp at hs <;> (obtain ⟨rfl, -⟩ := hs; simp)
    · simp only [Future.abortOnceDo, Future.abort] at hs
      split at hs
      · simp at hs; obtain ⟨rfl, -⟩ := hs; simp
      · split at hs <;> simp at hs
        obtain ⟨rfl, -⟩ := hs; simp
    · simp at hs; obtain ⟨rfl, -⟩ := hs; simp
    · simp at hs

theorem Sys.Inv.exec_inv {s s1 : Sys} {a : Action} (h : s.Inv) (hs : s.exec a = some s1) :
    s1.Inv := by
  cases a with
  | callExecute =>
    simp [Sys.exec] at hs; subst hs
    exact h.congr rfl rfl rfl rfl rfl rfl rfl rfl rfl
  | callGet t =>
    simp [Sys.exec] at hs; subst hs
    exact h.congr rfl rfl rfl rfl rfl rfl rfl rfl rfl
  | callCancel =>
    simp [Sys.exec] at hs; subst hs
    exact h.congr rfl rfl rfl rfl rfl rfl rfl rfl rfl
  | dequeue =>
    simp only [Sys.exec] at hs
    split at hs
    · simp at hs
    · next hq =>
      simp at hs; subst hs
      have hse := h.submits_eq
      have hqw := h.queue_workers
      have hle := h.workers_le
      have hw : s.workers = [] := by
        apply List.eq_nil_of_length_eq_zero
        split at hse <;> omega
      have hrC := h.rC_none hw
      have hc := h.calls_none hw
      have hao := h.aC_once
      have hale := h.aC_le
      constructor <;> simp_all [WorkerPc.beforeCall, WorkerPc.afterCall]
  | step tid c =>
    simp only [Sys.exec] at hs
    split at hs
    · simp at hs
    · next g hg =>
      split at hs
      · simp at hs
      · next s2 g1 hstep =>
        simp at hs; subst hs
        exact (h.stepCaller hstep).congr rfl rfl rfl rfl rfl rfl rfl rfl rfl
  | work wid =>
    simp only [Sys.exec] at hs
    split at hs
    · simp at hs
    · next w hw =>
      split at hs
      · simp at hs
      · next s2 w1 hstep =>
        simp at hs; subst hs
        exact h.stepWorker hw hstep

end Workflow

namespace Workflow

/-! ## Every step brings the world closer to its end -/

theorem List.sum_map_set {α : Type} (m : α → Nat) {l : List α} {i : Nat} {a b : α}
    (h : l[i]? = some a) :
    ((l.set i b).map m).sum + m a = (l.map m).sum + m b := by
  induction l generalizing i with
  | nil => simp at h
  | cons x xs ih =>
    cases i with
    | zero =>
      simp only [List.getElem?_cons_zero, Option.some.injEq] at h
      subst h
      simp only [List.set_cons_zero, List.map_cons, List.sum_cons]
      omega
    | succ n =>
      simp only [List.getElem?_cons_succ] at h
      have := ih h
      simp only [List.set_cons_succ, List.map_cons, List.sum_cons]
      omega

theorem Sys.stepCaller_callTarget {s s1 : Sys} {c : SelectCase} {g g1 : Goroutine}
    (hs : s.stepCaller c g = some (s1, g1)) : s1.f.callTarget = s.f.callTarget := by
  obtain ⟨-, -, -, h1, h2⟩ := Sys.stepCaller_frame hs
  simp [Future.callTarget, h1, h2]

theorem Sys.stepCaller_remaining {s s1 : Sys} {c : SelectCase} {g g1 : Goroutine}
    (hs : s.stepCaller c g = some (s1, g1)) :
    g1.remaining + (if s1.f.runOnce then 0 else s1.f.callTarget.length + 8)
        + s1.tasksQueue * (s1.f.callTarget.length + 8)
      < g.remaining + (if s.f.runOnce then 0 else s.f.callTarget.length + 8)
        + s.tasksQueue * (s.f.callTarget.length + 8) := by
  have hct := Sys.stepCaller_callTarget hs
  rw [hct]
  cases g with
  | Execute pc =>
    cases pc <;> simp only [Sys.stepCaller, Sys.stepExecute] at hs
    · split at hs <;> simp at hs <;>
        (obtain ⟨rfl, rfl⟩ := hs; simp [Goroutine.remaining, ExecutePc.remaining])
    · split at hs
      · simp at hs; obtain ⟨rfl, rfl⟩ := hs
        simp [Goroutine.remaining, ExecutePc.remaining]
      · next hr =>
        simp at hs; obtain ⟨rfl, rfl⟩ := hs
        simp [Goroutine.remaining, ExecutePc.remaining, hr, Nat.succ_mul]
        omega
    · simp at hs; obtain ⟨rfl, rfl⟩ := hs
      simp [Goroutine.remaining, ExecutePc.remaining]
    · simp at hs
  | Get t pc =>
    cases pc <;> simp only [Sys.stepCaller, Sys.stepGet] at hs
    · split at hs <;> simp at hs <;>
        (obtain ⟨rfl, rfl⟩ := hs; simp [Goroutine.remaining, GetPc.remaining])
    · cases c <;> simp only at hs <;> split at hs <;> simp at hs <;>
        (obtain ⟨rfl, rfl⟩ := hs; simp [Goroutine.remaining, GetPc.remaining])
    · simp at hs; obtain ⟨rfl, rfl⟩ := hs
      simp [Goroutine.remaining, GetPc.remaining]
    · simp only [Future.abortOnceDo, Future.abort] at hs
      split at hs
      · simp at hs; obtain ⟨rfl, rfl⟩ := hs
        simp [Goroutine.remaining, GetPc.remaining]
      · split at hs <;> simp at hs
        obtain ⟨rfl, rfl⟩ := hs
        simp [Goroutine.remaining, GetPc.remaining]
    · simp at hs; obtain ⟨rfl, rfl⟩ := hs
      simp [Goroutine.remaining, GetPc.remaining]
    · simp at hs; obtain ⟨rfl, rfl⟩ := hs
      simp [Goroutine.remaining, GetPc.remaining]
    · simp at hs; obtain ⟨rfl, rfl⟩ := hs
      simp [Goroutine.remaining, GetPc.remaining]
    · simp at hs
  | Cancel pc =>
    cases pc <;> simp only [Sys.stepCaller, Sys.stepCancel] at hs
    · split at hs <;> simp at hs <;>
        (obtain ⟨rfl, rfl⟩ := hs; simp [Goroutine.remaining, CancelPc.remaining])
    · simp only [Future.abortOnceDo, Future.abort] at hs
      split at hs
      · simp at hs; obtain ⟨rfl, rfl⟩ := hs
        simp [Goroutine.remaining, CancelPc.remaining]
      · split at hs <;> simp at hs
        obtain ⟨rfl, rfl⟩ := hs
        simp [Goroutine.remaining, CancelPc.remaining]
    · simp at hs; obtain ⟨rfl, rfl⟩ := hs
      simp [Goroutine.remaining, CancelPc.remaining]
    · simp at hs

theorem Sys.stepWorker_frame {s s1 : Sys} {w w1 : WorkerPc}
    (hs : s.stepWorker w = some (s1, w1)) :
    s1.callers = s.callers ∧ s1.workers = s.workers ∧ s1.tasksQueue = s.tasksQueue ∧
      s1.submits = s.submits ∧ s1.f.runOnce = s.f.runOnce ∧
      s1.f.targetFunc = s.f.targetFunc ∧ s1.f.paramsPassed = s.f.paramsPassed ∧
      w1.remaining s.f.callTarget.length < w.remaining s.f.callTarget.length := by
  cases w with
  | lenCheck =>
    simp only [Sys.stepWorker] at hs
    split at hs <;> simp at hs <;> obtain ⟨rfl, rfl⟩ := hs <;> simp [WorkerPc.remaining]
  | setRunning =>
    simp [Sys.stepWorker] at hs; obtain ⟨rfl, rfl⟩ := hs; simp [WorkerPc.remaining]
  | callTarget =>
    simp [Sys.stepWorker] at hs; obtain ⟨rfl, rfl⟩ := hs; simp [WorkerPc.remaining]
  | inTarget =>
    simp [Sys.stepWorker] at hs; obtain ⟨rfl, rfl⟩ := hs; simp [WorkerPc.remaining]
  | setInvoked returned =>
    simp [Sys.stepWorker] at hs; obtain ⟨rfl, rfl⟩ := hs; simp [WorkerPc.remaining]
  | append rest =>
    cases rest with
    | nil => simp [Sys.stepWorker] at hs; obtain ⟨rfl, rfl⟩ := hs; simp [WorkerPc.remaining]
    | cons r rest =>
      simp [Sys.stepWorker] at hs; obtain ⟨rfl, rfl⟩ := hs; simp [WorkerPc.remaining]
  | close =>
    simp only [Sys.stepWorker] at hs
    split at hs <;> simp at hs
    obtain ⟨rfl, rfl⟩ := hs; simp [WorkerPc.remaining]
  | done => simp [Sys.stepWorker] at hs

theorem Sys.exec_remaining {s s1 : Sys} {a : Action} (ha : a.isCall = false)
    (hs : s.exec a = some s1) : s1.remaining < s.remaining := by
  cases a with
  | callExecute => simp [Action.isCall] at ha
  | callGet t => simp [Action.isCall] at ha
  | callCancel => simp [Action.isCall] at ha
  | dequeue =>
    simp only [Sys.exec] at hs
    split at hs
    · simp at hs
    · next hq =>
      simp at hs; subst hs
      obtain ⟨q, hq1⟩ : ∃ q, s.tasksQueue = q + 1 := ⟨s.tasksQueue - 1, by omega⟩
      simp [Sys.remaining, hq1, Nat.succ_mul, WorkerPc.remaining]
      omega
  | step tid c =>
    simp only [Sys.exec] at hs
    split at hs
    · simp at hs
    · next g hg =>
      split at hs
      · simp at hs
      · next s2 g1 hstep =>
        simp at hs; subst hs
        obtain ⟨h1, h2, -, -, -⟩ := Sys.stepCaller_frame hstep
        have hct := Sys.stepCaller_callTarget hstep
        have hlt := Sys.stepCaller_remaining hstep
        rw [hct] at hlt
        simp only [Sys.remaining, hct, h1, h2]
        have := List.sum_map_set Goroutine.remaining (b := g1) hg
        omega
  | work wid =>
    simp only [Sys.exec] at hs
    split at hs
    · simp at hs
    · next w hw =>
      split at hs
      · simp at hs
      · next s2 w1 hstep =>
        simp at hs; subst hs
        obtain ⟨h1, h2, h3, -, h5, h6, h7, hlt⟩ := Sys.stepWorker_frame hstep
        have hct : s2.f.callTarget = s.f.callTarget := by
          simp [Future.callTarget, h6, h7]
        simp only [Sys.remaining, hct, h1, h2, h3, h5]
        have := List.sum_map_set (WorkerPc.remaining s.f.callTarget.length) (b := w1) hw
        omega

end Workflow

namespace Workflow

/-! ## Worlds in which only Execute is called -/

theorem Sys.ExecInv.exec_execInv {s s1 : Sys} {a : Action} (hi : s.Inv) (h : s.ExecInv)
    (ha : a.executeOnly = true) (hs : s.exec a = some s1) : s1.ExecInv := by
  have hna := h.no_abort
  have haC := hi.aC_once hna
  cases a with
  | callExecute =>
    simp [Sys.exec] at hs; subst hs
    constructor
    · exact hna
    · intro g hg
      simp at hg
      rcases hg with hg | rfl
      · exact h.only_execute g hg
      · exact ⟨_, rfl⟩
    · intro g hg hgeq
      simp at hg
      rcases hg with hg | rfl
      · exact h.passed_submit g hg hgeq
      · simp at hgeq
    · intro g hg hgeq
      simp at hg
      rcases hg with hg | rfl
      · exact h.returned_stage g hg hgeq
      · simp at hgeq
    · exact h.stage_once
    · exact h.closed_called
  | callGet t => simp [Action.executeOnly] at ha
  | callCancel => simp [Action.executeOnly] at ha
  | dequeue =>
    simp only [Sys.exec] at hs
    split at hs
    · simp at hs
    · next hq =>
      simp at hs; subst hs
      have hse := hi.submits_eq
      have hqw := hi.queue_workers
      have hw : s.workers = [] := by
        apply List.eq_nil_of_length_eq_zero
        split at hse <;> omega
      constructor
      · exact hna
      · exact h.only_execute
      · exact h.passed_submit
      · exact h.returned_stage
      · exact h.stage_once
      · intro w hwm hweq
        simp [hw] at hwm
        subst hwm
        simp at hweq
  | step tid c =>
    simp only [Sys.exec] at hs
    split at hs
    · simp at hs
    · next g hg =>
      split at hs
      · simp at hs
      · next s2 g1 hstep =>
        simp at hs; subst hs
        have hgm : g ∈ s.callers := List.mem_iff_getElem?.mpr ⟨tid, hg⟩
        obtain ⟨pc, rfl⟩ := h.only_execute g hgm
        have hps := h.passed_submit _ hgm
        cases pc <;> simp only [Sys.stepCaller, Sys.stepExecute] at hstep
        · split at hstep <;> simp at hstep <;> obtain ⟨rfl, rfl⟩ := hstep
          · next hst =>
            constructor
            · exact hna
            · intro g hgs
              rcases List.mem_or_eq_of_mem_set hgs with hg1 | rfl
              · exact h.only_execute g hg1
              · exact ⟨_, rfl⟩
            · intro g hgs hgeq
              rcases List.mem_or_eq_of_mem_set hgs with hg1 | rfl
              · exact h.passed_submit g hg1 hgeq
              · simp at hgeq
            · intro g hgs hgeq
              simpa using hst
            · exact h.stage_once
            · exact h.closed_called
          · next hst =>
            constructor
            · exact hna
            · intro g hgs
              rcases List.mem_or_eq_of_mem_set hgs with hg1 | rfl
              · exact h.only_execute g hg1
              · exact ⟨_, rfl⟩
            · intro g hgs hgeq
              rcases List.mem_or_eq_of_mem_set hgs with hg1 | rfl
              · exact h.passed_submit g hg1 hgeq
              · simp at hgeq
            · intro g hgs hgeq
              rcases List.mem_or_eq_of_mem_set hgs with hg1 | rfl
              · exact h.returned_stage g hg1 hgeq
              · simp at hgeq
            · exact h.stage_once
            · exact h.closed_called
        · split at hstep <;> simp at hstep <;> obtain ⟨rfl, rfl⟩ := hstep
          · next hr =>
            constructor
            · exact hna
            · intro g hgs
              rcases List.mem_or_eq_of_mem_set hgs with hg1 | rfl
              · exact h.only_execute g hg1
              · exact ⟨_, rfl⟩
            · intro g hgs hgeq
              exact hr
            · intro g hgs hgeq
              rcases List.mem_or_eq_of_mem_set hgs with hg1 | rfl
              · exact h.returned_stage g hg1 hgeq
              · simp at hgeq
            · exact h.stage_once
            · exact h.closed_called
          · next hr =>
            constructor
            · exact hna
            · intro g hgs
              rcases List.mem_or_eq_of_mem_set hgs with hg1 | rfl
              · exact h.only_execute g hg1
              · exact ⟨_, rfl⟩
            · intro g hgs hgeq
              rfl
            · intro g hgs hgeq
              rcases List.mem_or_eq_of_mem_set hgs with hg1 | rfl
              · exact h.returned_stage g hg1 hgeq
              · simp at hgeq
            · intro _; rfl
            · exact h.closed_called
        · simp at hstep; obtain ⟨rfl, rfl⟩ := hstep
          have hr := hps rfl
          constructor
          · exact hna
          · intro g hgs
            rcases List.mem_or_eq_of_mem_set hgs with hg1 | rfl
            · exact h.only_execute g hg1
            · exact ⟨_, rfl⟩
          · intro g hgs hgeq
            exact hr
          · intro g hgs hgeq
            simp
          · intro _; exact hr
          · exact h.closed_called
        · simp at hstep
  | work wid =>
    simp only [Sys.exec] at hs
    split at hs
    · simp at hs
    · next w hw =>
      split at hs
      · simp at hs
      · next s2 w1 hstep =>
        simp at hs; subst hs
        obtain ⟨hws, rfl⟩ := List.eq_singleton_of_getElem_some hi.workers_le hw
        have hin := hi.calls_in w (by simp [hws])
        have hcc := h.closed_called w (by simp [hws])
        have hse := hi.submits_eq
        have hqw := hi.queue_workers
        have hr : s.f.runOnce = true := by
          by_contra hr
          simp [hr, hws] at hse hqw
          omega
        have hoe := h.only_execute
        have hps := h.passed_submit
        have hrs := h.returned_stage
        cases w with
        | lenCheck =>
          simp only [Sys.stepWorker] at hstep
          split at hstep <;> simp at hstep <;> obtain ⟨rfl, rfl⟩ := hstep
          · next hne => simp [haC] at hne
          · constructor <;> first | assumption | (intros; simp; done) | simp_all
        | setRunning =>
          simp [Sys.stepWorker] at hstep; obtain ⟨rfl, rfl⟩ := hstep
          constructor <;> first | assumption | (intros; simp; done) | simp_all
        | callTarget =>
          simp [Sys.stepWorker] at hstep; obtain ⟨rfl, rfl⟩ := hstep
          constructor <;> first | assumption | (intros; simp; done) | simp_all
        | inTarget =>
          simp [Sys.stepWorker] at hstep; obtain ⟨rfl, rfl⟩ := hstep
          constructor <;> first | assumption | (intros; simp; done) | simp_all
        | setInvoked returned =>
          simp [Sys.stepWorker] at hstep; obtain ⟨rfl, rfl⟩ := hstep
          constructor <;> first | assumption | (intros; simp; done) | simp_all
        | append rest =>
          cases rest with
          | nil =>
            simp [Sys.stepWorker] at hstep; obtain ⟨rfl, rfl⟩ := hstep
            constructor <;> first | assumption | (intros; simp; done) | simp_all [WorkerPc.afterCall]
          | cons r rest =>
            simp [Sys.stepWorker] at hstep; obtain ⟨rfl, rfl⟩ := hstep
            constructor <;> first | assumption | (intros; simp; done) | simp_all
        | close =>
          simp only [Sys.stepWorker] at hstep
          split at hstep <;> simp at hstep
          obtain ⟨rfl, rfl⟩ := hstep
          constructor <;> first | assumption | (intros; simp; done) | simp_all
        | done => simp [Sys.stepWorker] at hstep

theorem Action.executeOnly_of_not_isCall {a : Action} (h : a.isCall = false) :
    a.executeOnly = true := by
  cases a <;> simp_all [Action.isCall, Action.executeOnly]

/-- A world that is not at its end can do a step that is not a new call. -/
theorem Sys.ExecInv.progress {s : Sys} (hi : s.Inv) (h : s.ExecInv)
    (hq : s.quiescent = false) :
    ∃ a s1, a.isCall = false ∧ s.exec a = some s1 := by
  by_cases hc : s.callers.all Goroutine.returned = true
  · by_cases hqz : s.tasksQueue = 0
    · have hwf : s.workers.all WorkerPc.finished = false := by
        simpa [Sys.quiescent, hc, hqz] using hq
      obtain ⟨w, hwm, hwn⟩ : ∃ w ∈ s.workers, w.finished = false := by
        simpa using hwf
      obtain ⟨wid, hwid⟩ := List.mem_iff_getElem?.mp hwm
      have hrc := hi.rC_iff w hwm
      have hstep : ∃ r, s.stepWorker w = some r := by
        cases w with
        | lenCheck => simp only [Sys.stepWorker]; split <;> exact ⟨_, rfl⟩
        | setRunning => exact ⟨_, rfl⟩
        | callTarget => exact ⟨_, rfl⟩
        | inTarget => exact ⟨_, rfl⟩
        | setInvoked returned => exact ⟨_, rfl⟩
        | append rest => cases rest <;> exact ⟨_, rfl⟩
        | close =>
          have : s.f.rC = false := by simpa using hrc
          simp [Sys.stepWorker, this]
        | done => simp [WorkerPc.finished] at hwn
      obtain ⟨⟨s2, w1⟩, hr⟩ := hstep
      exact ⟨Action.work wid, { s2 with workers := s2.workers.set wid w1 }, rfl,
        by simp [Sys.exec, hwid, hr]⟩
    · exact ⟨Action.dequeue, { s with
        tasksQueue := s.tasksQueue - 1
        workers := s.workers ++ [WorkerPc.lenCheck] }, rfl, by simp [Sys.exec, hqz]⟩
  · obtain ⟨g, hgm, hgn⟩ : ∃ g ∈ s.callers, g.returned = false := by
      simpa using hc
    obtain ⟨tid, htid⟩ := List.mem_iff_getElem?.mp hgm
    obtain ⟨pc, rfl⟩ := h.only_execute g hgm
    have hstep : ∃ r, s.stepCaller SelectCase.done (Goroutine.Execute pc) = some r := by
      cases pc with
      | check => simp only [Sys.stepCaller, Sys.stepExecute]; split <;> exact ⟨_, rfl⟩
      | submit => simp only [Sys.stepCaller, Sys.stepExecute]; split <;> exact ⟨_, rfl⟩
      | setStage => exact ⟨_, rfl⟩
      | ret => simp [Goroutine.returned] at hgn
    obtain ⟨⟨s2, g1⟩, hr⟩ := hstep
    exact ⟨Action.step tid SelectCase.done, { s2 with callers := s2.callers.set tid g1 }, rfl,
      by simp [Sys.exec, htid, hr]⟩

/-- Without new calls the world reaches its end. -/
theorem Sys.ExecInv.finish (n : Nat) : ∀ s : Sys, s.remaining ≤ n → s.Inv → s.ExecInv →
    ∃ more s1, (∀ a ∈ more, a.isCall = false) ∧ s.run more = some s1 ∧
      s1.quiescent = true := by
  induction n with
  | zero =>
    intro s hn hi h
    by_cases hq : s.quiescent = true
    · exact ⟨[], s, by simp, rfl, hq⟩
    · obtain ⟨a, s1, ha, hs⟩ := h.progress hi (by simpa using hq)
      have := Sys.exec_remaining ha hs
      omega
  | succ n ih =>
    intro s hn hi h
    by_cases hq : s.quiescent = true
    · exact ⟨[], s, by simp, rfl, hq⟩
    · obtain ⟨a, s1, ha, hs⟩ := h.progress hi (by simpa using hq)
      have hlt := Sys.exec_remaining ha hs
      obtain ⟨more, s2, hm, hrun, hq2⟩ := ih s1 (by omega) (hi.exec_inv hs)
        (h.exec_execInv hi (Action.executeOnly_of_not_isCall ha) hs)
      refine ⟨a :: more, s2, ?_, ?_, hq2⟩
      · intro b hb
        simp at hb
        rcases hb with rfl | hb
        · exact ha
        · exact hm b hb
      · simp [Sys.run, hs, hrun]

end Workflow

namespace Workflow

/-! ## Execute -/

end Workflow

namespace Workflow

/-! ## Get on a completed future -/

end Workflow

namespace Workflow

/-! ## Cancel and timeout: what the schedules above lead to -/

/-- C3 (code bug): `Cancel` returned before any pool worker began `executeTarget`, but a
`Get(0)` that was already waiting took the abort signal out of `aC`; the worker then finds
`len(f.aC) == 0`, calls the target, and a later `Get(0)` returns the value of the target
with no error. -/
theorem Cancel_before_run_target_still_called :
    RunAsync boolTarget [] = Except.ok boolFuture ∧
    (Sys.new boolFuture).run cancelWhileGetWaits = some cancelledWithTaskQueued ∧
    cancelledWithTaskQueued.workers = [] ∧ cancelledWithTaskQueued.calls = [] ∧
    cancelledWithTaskQueued.callers[2]? = some (Goroutine.Cancel (CancelPc.ret true)) ∧
    cancelledWithTaskQueued.run workerThenGet = some cancelledButRun ∧
    cancelledButRun.calls = [[]] ∧
    cancelledButRun.callers[3]? = some (Goroutine.Get 0 (GetPc.ret [Val.bool true] none)) :=
  ⟨rfl, rfl, rfl, rfl, rfl, rfl, rfl, rfl⟩

/-- C4 (code bug): the timer of `Get(5)` fires while the target runs; that `Get` returns the
timed-out error and sends the abort signal, a second `Get` returns the aborted error, but the
stage is never set to `TIMEDOUT`: once the target has returned, a third `Get(0)` returns the
value of the target with no error.  The target was called once. -/
theorem Get_after_timeout_returns_values :
    RunAsync boolTarget [] = Except.ok boolFuture ∧
    (Sys.new boolFuture).run timeoutWhileRunning = some timedOutWhileRunning ∧
    timedOutWhileRunning.callers[1]? =
      some (Goroutine.Get 5 (GetPc.ret [] (some Error.timedout))) ∧
    timedOutWhileRunning.f.abortOnce = true ∧
    timedOutWhileRunning.f.stage = FutureStage.RUNNING ∧
    timedOutWhileRunning.run targetReturnsThenGet = some timedOutButCompleted ∧
    timedOutButCompleted.callers[3]? =
      some (Goroutine.Get 0 (GetPc.ret [Val.bool true] none)) ∧
    timedOutButCompleted.calls = [[]] :=
  ⟨rfl, rfl, rfl, rfl, rfl, rfl, rfl, rfl⟩

end Workflow

namespace Workflow

/-! ## After a Cancel that found the future calm -/

end Workflow

namespace Workflow

end Workflow

namespace Workflow

/-! ## The stage under whole calls and pool steps -/

end Workflow

namespace Workflow

theorem Sys.perform_Execute (s : Sys) :
    s.perform Op.Execute = some (
      if s.f.stage ≠ FutureStage.NOT_STARTED then
        { s with callers := s.callers ++ [Goroutine.Execute ExecutePc.ret] }
      else if s.f.runOnce then
        { s with
          f := { s.f with stage := FutureStage.SUBMITTED }
          callers := s.callers ++ [Goroutine.Execute ExecutePc.ret] }
      else
        { s with
          f := { s.f with runOnce := true, stage := FutureStage.SUBMITTED }
          tasksQueue := s.tasksQueue + 1
          submits := s.submits + 1
          callers := s.callers ++ [Goroutine.Execute ExecutePc.ret] }) := by
  by_cases h1 : s.f.stage = FutureStage.NOT_STARTED
  · by_cases h2 : s.f.runOnce = true
    · simp [Sys.perform, Sys.callWhole, Sys.finish, Sys.stepCaller, Sys.stepExecute,
        Goroutine.returned, h1, h2]
    · simp [Sys.perform, Sys.callWhole, Sys.finish, Sys.stepCaller, Sys.stepExecute,
        Goroutine.returned, h1, h2]
  · simp [Sys.perform, Sys.callWhole, Sys.finish, Sys.stepCaller, Sys.stepExecute,
      Goroutine.returned, h1]

end Workflow

namespace Workflow

end Workflow

namespace Workflow

end Workflow

namespace Workflow

/-! ## Step futures: launch and wait -/

theorem RunAsync_eq_made {targetFunc : Target} {args : List Val} {f : Future}
    (h : RunAsync targetFunc args = Except.ok f) : f = Future.made targetFunc args := by
  unfold RunAsync at h
  split at h
  · split at h
    · simp at h
    · simp at h; subst h; rfl
  · simp at h

theorem Sys.perform_Execute_made (es : ExecutorService) (targetFunc : Target)
    (args : List Val) :
    (Sys.new ((Future.made targetFunc args).SetExecutor es)).perform Op.Execute =
      some (Sys.childSubmitted es targetFunc args) := by
  rw [Sys.perform_Execute]
  rfl

theorem Sys.workAll_finished (s : Sys) (fuel : Nat)
    (h : s.workers.all WorkerPc.finished = true) : s.workAll fuel = some s := by
  cases fuel <;> simp [Sys.workAll, h]

theorem Sys.workAll_step (s s1 : Sys) (fuel : Nat)
    (hnf : s.workers.all WorkerPc.finished = false)
    (hstep : s.perform (Op.work 0) = some s1) : s.workAll (fuel + 1) = s1.workAll fuel := by
  rw [Sys.workAll]
  simp [hnf, hstep]

theorem Sys.workAll_append (rest : List Val) : ∀ (s : Sys) (fuel : Nat),
    s.workers = [WorkerPc.append rest] → s.f.rC = false → rest.length + 2 ≤ fuel →
    s.workAll fuel = some { s with
      f := { s.f with funcReturned := s.f.funcReturned ++ rest, rC := true }
      workers := [WorkerPc.done] } := by
  induction rest with
  | nil =>
    intro s fuel hw hr hfuel
    obtain ⟨n, rfl⟩ : ∃ n, fuel = n + 1 + 1 := ⟨fuel - 2, by simp at hfuel; omega⟩
    rw [Sys.workAll_step s { s with workers := [WorkerPc.close] } (n + 1)
      (by simp [hw, WorkerPc.finished])
      (by simp [Sys.perform, Sys.exec, Sys.stepWorker, hw])]
    rw [Sys.workAll_step _ { s with f := { s.f with rC := true }, workers := [WorkerPc.done] } n
      (by simp [WorkerPc.finished])
      (by simp [Sys.perform, Sys.exec, Sys.stepWorker, hr])]
    rw [Sys.workAll_finished _ _ (by simp [WorkerPc.finished])]
    simp
  | cons r rest ih =>
    intro s fuel hw hr hfuel
    obtain ⟨n, rfl⟩ : ∃ n, fuel = n + 1 := ⟨fuel - 1, by simp at hfuel; omega⟩
    rw [Sys.workAll_step s { s with
        f := { s.f with funcReturned := s.f.funcReturned ++ [r] }
        workers := [WorkerPc.append rest] } n
      (by simp [hw, WorkerPc.finished])
      (by simp [Sys.perform, Sys.exec, Sys.stepWorker, hw])]
    rw [ih { s with
        f := { s.f with funcReturned := s.f.funcReturned ++ [r] }
        workers := [WorkerPc.append rest] } n rfl hr (by simp at hfuel ⊢; omega)]
    simp

theorem Sys.poolRuns_childSubmitted (es : ExecutorService) (targetFunc : Target)
    (args : List Val) :
    (Sys.childSubmitted es targetFunc args).poolRuns =
      some (Sys.childFinished es targetFunc args) := by
  have hct : (Sys.childSubmitted es targetFunc args).f.callTarget =
      targetFunc.results args := rfl
  have hq : (Sys.childSubmitted es targetFunc args).tasksQueue ≠ 0 := by
    simp [Sys.childSubmitted]
  have hd : (Sys.childSubmitted es targetFunc args).perform Op.dequeue =
      some (Sys.childRunning es targetFunc args FutureStage.SUBMITTED WorkerPc.lenCheck []) :=
    rfl
  simp only [Sys.poolRuns, hq, if_false, hd, hct]
  rw [show (targetFunc.results args).length + 7 =
    (targetFunc.results args).length + 2 + 1 + 1 + 1 + 1 + 1 from rfl]
  rw [Sys.workAll_step
      (Sys.childRunning es targetFunc args FutureStage.SUBMITTED WorkerPc.lenCheck [])
      (Sys.childRunning es targetFunc args FutureStage.SUBMITTED WorkerPc.setRunning [])
      _ rfl rfl,
    Sys.workAll_step
      (Sys.childRunning es targetFunc args FutureStage.SUBMITTED WorkerPc.setRunning [])
      (Sys.childRunning es targetFunc args FutureStage.RUNNING WorkerPc.callTarget [])
      _ rfl rfl,
    Sys.workAll_step
      (Sys.childRunning es targetFunc args FutureStage.RUNNING WorkerPc.callTarget [])
      (Sys.childRunning es targetFunc args FutureStage.RUNNING WorkerPc.inTarget [args])
      _ rfl rfl,
    Sys.workAll_step
      (Sys.childRunning es targetFunc args FutureStage.RUNNING WorkerPc.inTarget [args])
      (Sys.childRunning es targetFunc args FutureStage.RUNNING
        (WorkerPc.setInvoked (targetFunc.results args)) [args])
      _ rfl rfl,
    Sys.workAll_step
      (Sys.childRunning es targetFunc args FutureStage.RUNNING
        (WorkerPc.setInvoked (targetFunc.results args)) [args])
      (Sys.childRunning es targetFunc args FutureStage.TARGET_INVOKED
        (WorkerPc.append (targetFunc.results args)) [args])
      _ rfl rfl]
  rw [Sys.workAll_append (targetFunc.results args) _ _ rfl rfl (Nat.le_refl _)]
  rfl

theorem Sys.poolRuns_childFinished (es : ExecutorService) (targetFunc : Target)
    (args : List Val) :
    (Sys.childFinished es targetFunc args).poolRuns =
      some (Sys.childFinished es targetFunc args) := by
  simp [Sys.poolRuns, Sys.childFinished, Sys.workAll, WorkerPc.finished]

theorem Sys.GetWhole_childFinished (es : ExecutorService) (targetFunc : Target)
    (args : List Val) :
    (Sys.childFinished es targetFunc args).GetWhole 0 SelectCase.done =
      some (Sys.childCompleted es targetFunc args, targetFunc.results args, none) := by
  simp [Sys.GetWhole, Sys.finish, Sys.stepCaller, Sys.stepGet, Goroutine.returned,
    Sys.childFinished, Sys.childCompleted]

/-- `Get(0)` on a launched step future returns what `callTarget` returns for the target and
the bound arguments, whenever the pool runs the task. -/
theorem Sys.Get0_childLaunched (es : ExecutorService) (eager : Bool) (targetFunc : Target)
    (args : List Val) :
    (Sys.childLaunched es eager targetFunc args).Get0 =
      some (Sys.childCompleted es targetFunc args, targetFunc.results args, none) := by
  cases eager with
  | true =>
    simp only [Sys.childLaunched, if_true, Sys.Get0]
    have : (Sys.childFinished es targetFunc args).f.stage.terminal = false := rfl
    simp only [this, Bool.false_eq_true, if_false, Sys.poolRuns_childFinished,
      Sys.GetWhole_childFinished]
  | false =>
    simp only [Sys.childLaunched, Bool.false_eq_true, if_false, Sys.Get0]
    have : (Sys.childSubmitted es targetFunc args).f.stage.terminal = false := rfl
    simp only [this, Bool.false_eq_true, if_false, Sys.poolRuns_childSubmitted,
      Sys.GetWhole_childFinished]

theorem Sys.Get0_childCompleted (es : ExecutorService) (targetFunc : Target)
    (args : List Val) :
    (Sys.childCompleted es targetFunc args).Get0 =
      some ({ Sys.childCompleted es targetFunc args with
        callers := (Sys.childCompleted es targetFunc args).callers ++
          [Goroutine.Get 0 (GetPc.ret [] (some Error.COMPLETED_ALREADY))] },
        [], some Error.COMPLETED_ALREADY) := by
  simp [Sys.Get0, Sys.childCompleted, FutureStage.terminal, Sys.GetWhole, Sys.finish,
    Sys.stepCaller, Sys.stepGet, Goroutine.returned]

end Workflow

namespace Workflow

/-! ## The scheduling loop: launch and wait -/

@[simp] theorem step.setFuture_future (stp : step) (s : Sys) :
    (stp.setFuture s).future = some s := rfl

@[simp] theorem step.setFuture_targetFunc (stp : step) (s : Sys) :
    (stp.setFuture s).targetFunc = stp.targetFunc := rfl

@[simp] theorem step.setFuture_paramsPassed (stp : step) (s : Sys) :
    (stp.setFuture s).paramsPassed = stp.paramsPassed := rfl

@[simp] theorem step.setFuture_op (stp : step) (s : Sys) :
    (stp.setFuture s).op = stp.op := rfl

theorem FlowRun.launch_ok (es : ExecutorService) (sched : Nat → Bool) (r : FlowRun) (i : Nat)
    (currentStp : step) (args : List Val) (ftr : Future)
    (h : RunAsync currentStp.targetFunc args = Except.ok ftr) :
    r.launch es sched i currentStp args =
      { r with
        steps := r.steps.set i (currentStp.setFuture
          (Sys.childLaunched es (sched i) currentStp.targetFunc args))
        log := r.log ++ [Event.created i args] ++
          (if sched i then [Event.invoked i args] else []) } := by
  have hm := RunAsync_eq_made h
  subst hm
  simp only [FlowRun.launch, h, Sys.perform_Execute_made]
  cases hs : sched i with
  | true =>
    simp [Sys.poolRuns_childSubmitted, Sys.childLaunched, Sys.childFinished]
  | false =>
    simp [Sys.childLaunched]

theorem FlowRun.launch_error (es : ExecutorService) (sched : Nat → Bool) (r : FlowRun)
    (i : Nat) (currentStp : step) (args : List Val) (err : Error)
    (h : RunAsync currentStp.targetFunc args = Except.error err) :
    r.launch es sched i currentStp args =
      { r with stop := some (Stop.returned (Error.stepFailed i currentStp.op err)) } := by
  simp only [FlowRun.launch, h]

theorem FlowRun.await_launched (es : ExecutorService) (eager : Bool) (r : FlowRun) (p : Nat)
    (stp : step) (targetFunc : Target) (args : List Val)
    (h : r.steps[p]? = some stp)
    (hf : stp.future = some (Sys.childLaunched es eager targetFunc args)) :
    r.await p =
      ({ r with
        steps := r.steps.set p (stp.setFuture (Sys.childCompleted es targetFunc args))
        log := r.log ++ (if eager then [] else [Event.invoked p args]) ++
          [Event.waited p (targetFunc.results args)] },
        targetFunc.results args) := by
  simp only [FlowRun.await, h, hf, Sys.Get0_childLaunched]
  cases eager <;>
    simp [Sys.childLaunched, Sys.childCompleted, Sys.childFinished, Sys.childSubmitted]

theorem Target.results_nil (targetFunc : Target) : targetFunc.results [] = targetFunc.call [] :=
  rfl

end Workflow

namespace Workflow

/-! ## Flow.Execute and Flow.Get -/

theorem Flow.runFlow_congr (fl fl1 : Flow) (sched : Nat → Bool) (h1 : fl1.steps = fl.steps)
    (h2 : fl1.es = fl.es) : fl1.runFlow sched = fl.runFlow sched := by
  simp only [Flow.runFlow, h1, h2]

theorem Flow.Execute_fresh (fl : Flow) (sched : Nat → Bool) (hro : fl.runOnce = false) :
    fl.Execute sched = { fl with
      runOnce := true
      future := some (Sys.childSubmitted fl.es (fl.runFlowTarget sched) []) } := by
  have h : RunAsync (fl.runFlowTarget sched) [] =
      Except.ok (Future.made (fl.runFlowTarget sched) []) := by
    simp [RunAsync, Flow.runFlowTarget, Future.made]
  simp only [Flow.Execute, hro, Bool.false_eq_true, if_false, h, Sys.perform_Execute_made]

end Workflow

namespace Workflow

/-! ## ThenApply -/

end Workflow

namespace Workflow

/-! ## The loop over independent steps, and the waits of ThenCombine -/

theorem FlowRun.loop_succ (es : ExecutorService) (sched : Nat → Bool) (r : FlowRun) (n : Nat) :
    FlowRun.loop es sched r (n + 1) = FlowRun.iteration es sched (FlowRun.loop es sched r n) n := by
  simp [FlowRun.loop, List.range_succ, List.foldl_append]

end Workflow

namespace Workflow

/-! ## ThenCombine -/

end Workflow

namespace Workflow

end Workflow

namespace Workflow

/-! ## The arguments of a COMBINE step, in every flow -/

/-- C10 as stated fails: in `NewFlow(hundred).ThenApply(double).AndCall(sixty)
.ThenCombine(add)` the `COMBINE` step has index 3 and the most recent `APPLY` step index 1.
The code starts at that step itself: the future of `add` is created with the results of the
steps 1 and 2, `[200, 60]`, and the flow returns `[260]`; the start as specified is the
index just after it, 2, and the only result list from there is that of step 2, `[60]`. -/
theorem COMBINE_starts_at_the_APPLY_step :
    (((NewFlow hundredTarget []).bind fun fl => fl.ThenApply doubleTarget).bind
      fun fl => fl.AndCall sixtyTarget []).bind (fun fl => fl.ThenCombine addTarget) =
      some chainFlow ∧
    combineStartAsSpecified chainFlow.steps 3 = 2 ∧
    combineStart chainFlow.steps 3 = 1 ∧
    (chainFlow.runFlow (fun _ => true)).1.log =
      [Event.created 0 [], Event.invoked 0 [], Event.waited 0 [Val.int 100],
       Event.created 1 [Val.int 100], Event.invoked 1 [Val.int 100],
       Event.created 2 [], Event.invoked 2 [],
       Event.waited 1 [Val.int 200], Event.waited 2 [Val.int 60],
       Event.created 3 [Val.int 200, Val.int 60], Event.invoked 3 [Val.int 200, Val.int 60],
       Event.waited 3 [Val.int 260]] ∧
    (chainFlow.runFlow (fun _ => true)).2 = Outcome.returned [Val.int 260] none ∧
    sixtyTarget.results [] = [Val.int 60] ∧
    [Val.int 200, Val.int 60] ≠ [[Val.int 60]].flatten :=
  ⟨rfl, rfl, rfl, rfl, rfl, rfl, by simp⟩

theorem combineStart_succ (steps : List step) (i : Nat) :
    combineStart steps (i + 1) =
      match steps[i]? with
      | some stp =>
        if stp.op = OpType.APPLY ∨ stp.op = OpType.COMBINE then i else combineStart steps i
      | none => combineStart steps i := by
  simp only [combineStart, List.range_succ, List.foldl_append, List.foldl_cons, List.foldl_nil]

/-- `combineStart steps i` is the index of the last `APPLY` or `COMBINE` step before `i`,
or 0 when there is none. -/
theorem combineStart_spec (steps : List step) (i : Nat) :
    (combineStart steps i = 0 ∨
      (combineStart steps i < i ∧ ∃ st, steps[combineStart steps i]? = some st ∧
        (st.op = OpType.APPLY ∨ st.op = OpType.COMBINE))) ∧
    (∀ (p : Nat) (st : step), combineStart steps i < p → p < i → steps[p]? = some st →
      st.op = OpType.CALL ∨ st.op = OpType.AND) := by
  induction i with
  | zero =>
    refine ⟨Or.inl (by simp [combineStart]), ?_⟩
    intro p st _ hp
    omega
  | succ n ih =>
    obtain ⟨h1, h2⟩ := ih
    rw [combineStart_succ]
    split
    · next stp hstp =>
      split
      · next hop =>
        refine ⟨Or.inr ⟨by omega, stp, hstp, hop⟩, ?_⟩
        intro p st hp1 hp2
        omega
      · next hop =>
        refine ⟨?_, ?_⟩
        · rcases h1 with h | ⟨h, hst⟩
          · exact Or.inl h
          · exact Or.inr ⟨by omega, hst⟩
        · intro p st hp1 hp2 hst
          by_cases hpn : p = n
          · subst hpn
            rw [hstp] at hst
            cases hst
            cases hs : stp.op <;> simp [hs] at hop ⊢
          · exact h2 p st hp1 (by omega) hst
    · next hnone =>
      refine ⟨?_, ?_⟩
      · rcases h1 with h | ⟨h, hst⟩
        · exact Or.inl h
        · exact Or.inr ⟨by omega, hst⟩
      · intro p st hp1 hp2 hst
        by_cases hpn : p = n
        · subst hpn
          rw [hnone] at hst
          simp at hst
        · exact h2 p st hp1 (by omega) hst

theorem combineStart_congr (l1 l2 : List step) (i : Nat)
    (h : ∀ (p : Nat) (st : step), l1[p]? = some st → ∃ st0 : step, l2[p]? = some st0 ∧ st.op = st0.op)
    (hlen : l1.length = l2.length) : combineStart l1 i = combineStart l2 i := by
  induction i with
  | zero => simp [combineStart]
  | succ n ih =>
    rw [combineStart_succ, combineStart_succ, ih]
    cases h1 : l1[n]? with
    | none =>
      have : l2[n]? = none := by
        rw [List.getElem?_eq_none_iff] at h1 ⊢
        omega
      simp [this]
    | some st =>
      obtain ⟨st0, h2, hop⟩ := h n st h1
      simp [h2, hop]

/-! ### The events of a launch and of a wait -/

theorem Event.waited_mem_launch (l : List Event) (b : Bool) (i p : Nat) (args vals : List Val) :
    Event.waited p vals ∈ l ++ [Event.created i args] ++
      (if b then [Event.invoked i args] else []) ↔ Event.waited p vals ∈ l := by
  cases b <;> simp

theorem Event.created_mem_launch (l : List Event) (b : Bool) (i p : Nat) (args a : List Val) :
    Event.created p a ∈ l ++ [Event.created i args] ++
      (if b then [Event.invoked i args] else []) ↔
      Event.created p a ∈ l ∨ (p = i ∧ a = args) := by
  cases b <;> simp

theorem Event.waited_mem_await (l : List Event) (b : Bool) (p q : Nat) (args vals w : List Val) :
    Event.waited q w ∈ l ++ (if b then [] else [Event.invoked p args]) ++
      [Event.waited p vals] ↔ Event.waited q w ∈ l ∨ (q = p ∧ w = vals) := by
  cases b <;> simp

theorem Event.created_mem_await (l : List Event) (b : Bool) (p q : Nat) (args vals a : List Val) :
    Event.created q a ∈ l ++ (if b then [] else [Event.invoked p args]) ++
      [Event.waited p vals] ↔ Event.created q a ∈ l := by
  cases b <;> simp

theorem Event.waited_mem_invoked (l : List Event) (p q : Nat) (calls : List (List Val))
    (w : List Val) :
    Event.waited q w ∈ l ++ calls.map (Event.invoked p) ↔ Event.waited q w ∈ l := by
  simp

theorem Event.created_mem_invoked (l : List Event) (p q : Nat) (calls : List (List Val))
    (a : List Val) :
    Event.created q a ∈ l ++ calls.map (Event.invoked p) ↔ Event.created q a ∈ l := by
  simp

/-! ### The loop keeps `FlowRun.Sound` -/

theorem FlowRun.Sound.stopped {es : ExecutorService} {steps0 : List step} {r : FlowRun}
    (h : FlowRun.Sound es steps0 r) (x : Stop) :
    FlowRun.Sound es steps0 { r with stop := some x } :=
  { length_eq := h.length_eq
    static := h.static
    futures := fun hs => by simp at hs
    waited_ok := h.waited_ok
    combine_ok := h.combine_ok }

theorem FlowRun.Sound.initial (es : ExecutorService) (steps0 : List step)
    (hfresh : ∀ st ∈ steps0, st.future = none) :
    FlowRun.Sound es steps0 { steps := steps0, log := [], stop := none } :=
  { length_eq := rfl
    static := fun p st hp => ⟨st, hp, rfl, rfl, rfl⟩
    futures := fun _ p st s hp hf => by
      have := hfresh st (List.mem_iff_getElem?.2 ⟨p, hp⟩)
      rw [this] at hf
      cases hf
    waited_ok := fun p vals hw => by simp at hw
    combine_ok := fun i a st0 hc => by simp at hc }

theorem FlowRun.Sound.launch_sound {es : ExecutorService} {steps0 : List step} {r : FlowRun}
    (sched : Nat → Bool) (h : FlowRun.Sound es steps0 r) (hstop : r.stop = none)
    (i : Nat) (stp : step) (args : List Val) (hi : r.steps[i]? = some stp)
    (hargs : stp.op = OpType.COMBINE →
      ∃ rs : List (List Val), rs.length = i - combineStart steps0 i ∧ args = rs.flatten ∧
        ∀ (j : Nat) (vals : List Val), rs[j]? = some vals →
          Event.waited (combineStart steps0 i + j) vals ∈ r.log) :
    FlowRun.Sound es steps0 (r.launch es sched i stp args) := by
  cases hr : RunAsync stp.targetFunc args with
  | error err =>
    rw [FlowRun.launch_error es sched r i stp args err hr]
    exact h.stopped _
  | ok ftr =>
    rw [FlowRun.launch_ok es sched r i stp args ftr hr]
    have hlt : i < r.steps.length := by
      by_contra hcon
      rw [List.getElem?_eq_none (by omega)] at hi
      cases hi
    constructor
    · simpa using h.length_eq
    · intro p st hp
      by_cases hpi : p = i
      · subst hpi
        simp only [List.getElem?_set_self hlt, Option.some.injEq] at hp
        subst hp
        simpa using h.static p stp hi
      · simp only [List.getElem?_set_ne (Ne.symm hpi)] at hp
        exact h.static p st hp
    · intro _ p st s hp hf
      by_cases hpi : p = i
      · subst hpi
        simp only [List.getElem?_set_self hlt, Option.some.injEq] at hp
        subst hp
        simp only [step.setFuture_future, Option.some.injEq] at hf
        subst hf
        exact ⟨args, (Event.created_mem_launch _ _ _ _ _ _).2 (Or.inr ⟨rfl, rfl⟩),
          Or.inl ⟨sched p, rfl⟩⟩
      · simp only [List.getElem?_set_ne (Ne.symm hpi)] at hp
        obtain ⟨a, ha, hs⟩ := h.futures hstop p st s hp hf
        exact ⟨a, (Event.created_mem_launch _ _ _ _ _ _).2 (Or.inl ha), hs⟩
    · intro p vals hw
      obtain ⟨st0, a, h0, ha, hv⟩ := h.waited_ok p vals ((Event.waited_mem_launch _ _ _ _ _ _).1 hw)
      exact ⟨st0, a, h0, (Event.created_mem_launch _ _ _ _ _ _).2 (Or.inl ha), hv⟩
    · intro i1 a st0 hc h0 hop
      rcases (Event.created_mem_launch _ _ _ _ _ _).1 hc with hc | ⟨rfl, rfl⟩
      · obtain ⟨rs, hlen, hflat, hw⟩ := h.combine_ok i1 a st0 hc h0 hop
        exact ⟨rs, hlen, hflat, fun j vals hj =>
          (Event.waited_mem_launch _ _ _ _ _ _).2 (hw j vals hj)⟩
      · obtain ⟨st1, h1, _, _, hop1⟩ := h.static i1 stp hi
        rw [h0] at h1
        cases h1
        obtain ⟨rs, hlen, hflat, hw⟩ := hargs (hop1.trans hop)
        exact ⟨rs, hlen, hflat, fun j vals hj =>
          (Event.waited_mem_launch _ _ _ _ _ _).2 (hw j vals hj)⟩

theorem FlowRun.await_frame (r : FlowRun) (p q : Nat) (hq : q ≠ p) :
    (r.await p).1.steps[q]? = r.steps[q]? := by
  cases hp : r.steps[p]? with
  | none => simp [FlowRun.await, hp]
  | some stp =>
    cases hf : stp.future with
    | none => simp [FlowRun.await, hp, hf]
    | some s =>
      cases hg : s.Get0 with
      | none => simp [FlowRun.await, hp, hf, hg]
      | some x =>
        obtain ⟨s1, vals, err⟩ := x
        cases err <;> simp [FlowRun.await, hp, hf, hg, List.getElem?_set_ne (Ne.symm hq)]

theorem FlowRun.await_log (r : FlowRun) (p : Nat) (e : Event) (he : e ∈ r.log) :
    e ∈ (r.await p).1.log := by
  cases hp : r.steps[p]? with
  | none => simpa [FlowRun.await, hp] using he
  | some stp =>
    cases hf : stp.future with
    | none => simpa [FlowRun.await, hp, hf] using he
    | some s =>
      cases hg : s.Get0 with
      | none => simpa [FlowRun.await, hp, hf, hg] using he
      | some x =>
        obtain ⟨s1, vals, err⟩ := x
        cases err <;> simp [FlowRun.await, hp, hf, hg, he]

theorem FlowRun.Sound.await_failed {es : ExecutorService} {steps0 : List step} {r : FlowRun}
    (h : FlowRun.Sound es steps0 r) (p : Nat) (stp : step) (s1 : Sys)
    (calls : List (List Val)) (x : Stop) (hp : r.steps[p]? = some stp) :
    FlowRun.Sound es steps0
      { r with
        steps := r.steps.set p (stp.setFuture s1)
        log := r.log ++ calls.map (Event.invoked p)
        stop := some x } := by
  have hlt : p < r.steps.length := by
    by_contra hcon
    rw [List.getElem?_eq_none (by omega)] at hp
    cases hp
  constructor
  · simpa using h.length_eq
  · intro q st hq
    by_cases hqp : q = p
    · subst hqp
      simp only [List.getElem?_set_self hlt, Option.some.injEq] at hq
      subst hq
      simpa using h.static q stp hp
    · simp only [List.getElem?_set_ne (Ne.symm hqp)] at hq
      exact h.static q st hq
  · intro hs
    simp at hs
  · intro q vals hw
    obtain ⟨st0, a, h0, ha, hv⟩ := h.waited_ok q vals ((Event.waited_mem_invoked _ _ _ _ _).1 hw)
    exact ⟨st0, a, h0, (Event.created_mem_invoked _ _ _ _ _).2 ha, hv⟩
  · intro i a st0 hc h0 hop
    obtain ⟨rs, hlen, hflat, hw⟩ :=
      h.combine_ok i a st0 ((Event.created_mem_invoked _ _ _ _ _).1 hc) h0 hop
    exact ⟨rs, hlen, hflat, fun j vals hj =>
      (Event.waited_mem_invoked _ _ _ _ _).2 (hw j vals hj)⟩

/-- A wait keeps `FlowRun.Sound`, and when the loop goes on its values are logged. -/
theorem FlowRun.Sound.await_sound {es : ExecutorService} {steps0 : List step} {r : FlowRun}
    (h : FlowRun.Sound es steps0 r) (hstop : r.stop = none) (p : Nat) :
    FlowRun.Sound es steps0 (r.await p).1 ∧
    ((r.await p).1.stop = none → Event.waited p (r.await p).2 ∈ (r.await p).1.log) := by
  cases hp : r.steps[p]? with
  | none =>
    have hr : r.await p = ({ r with stop := some Stop.panicked }, []) := by
      simp [FlowRun.await, hp]
    rw [hr]
    exact ⟨h.stopped _, fun hs => by simp at hs⟩
  | some stp =>
    cases hf : stp.future with
    | none =>
      have hr : r.await p = ({ r with stop := some Stop.panicked }, []) := by
        simp [FlowRun.await, hp, hf]
      rw [hr]
      exact ⟨h.stopped _, fun hs => by simp at hs⟩
    | some s =>
      obtain ⟨a, ha, hs⟩ := h.futures hstop p stp s hp hf
      have hlt : p < r.steps.length := by
        by_contra hcon
        rw [List.getElem?_eq_none (by omega)] at hp
        cases hp
      rcases hs with ⟨eager, rfl⟩ | rfl
      · rw [FlowRun.await_launched es eager r p stp stp.targetFunc a hp hf]
        refine ⟨?_, fun _ => by simp⟩
        constructor
        · simpa using h.length_eq
        · intro q st hq
          by_cases hqp : q = p
          · subst hqp
            simp only [List.getElem?_set_self hlt, Option.some.injEq] at hq
            subst hq
            simpa using h.static q stp hp
          · simp only [List.getElem?_set_ne (Ne.symm hqp)] at hq
            exact h.static q st hq
        · intro _ q st s hq hfq
          by_cases hqp : q = p
          · subst hqp
            simp only [List.getElem?_set_self hlt, Option.some.injEq] at hq
            subst hq
            simp only [step.setFuture_future, Option.some.injEq] at hfq
            subst hfq
            exact ⟨a, (Event.created_mem_await _ _ _ _ _ _ _).2 ha, Or.inr rfl⟩
          · simp only [List.getElem?_set_ne (Ne.symm hqp)] at hq
            obtain ⟨a1, ha1, hs1⟩ := h.futures hstop q st s hq hfq
            exact ⟨a1, (Event.created_mem_await _ _ _ _ _ _ _).2 ha1, hs1⟩
        · intro q vals hw
          rcases (Event.waited_mem_await _ _ _ _ _ _ _).1 hw with hw | ⟨rfl, rfl⟩
          · obtain ⟨st0, a1, h0, ha1, hv⟩ := h.waited_ok q vals hw
            exact ⟨st0, a1, h0, (Event.created_mem_await _ _ _ _ _ _ _).2 ha1, hv⟩
          · obtain ⟨st0, h0, ht, _, _⟩ := h.static q stp hp
            exact ⟨st0, a, h0, (Event.created_mem_await _ _ _ _ _ _ _).2 ha, by rw [ht]⟩
        · intro i a1 st0 hc h0 hop
          obtain ⟨rs, hlen, hflat, hw⟩ :=
            h.combine_ok i a1 st0 ((Event.created_mem_await _ _ _ _ _ _ _).1 hc) h0 hop
          exact ⟨rs, hlen, hflat, fun j vals hj =>
            (Event.waited_mem_await _ _ _ _ _ _ _).2 (Or.inl (hw j vals hj))⟩
      · have hr : r.await p =
            ({ r with
              steps := r.steps.set p (stp.setFuture
                { Sys.childCompleted es stp.targetFunc a with
                  callers := (Sys.childCompleted es stp.targetFunc a).callers ++
                    [Goroutine.Get 0 (GetPc.ret [] (some Error.COMPLETED_ALREADY))] })
              log := r.log ++
                ((Sys.childCompleted es stp.targetFunc a).calls.drop
                  (Sys.childCompleted es stp.targetFunc a).calls.length).map (Event.invoked p)
              stop := some (Stop.returned
                (Error.stepFailed p stp.op Error.COMPLETED_ALREADY)) }, []) := by
          simp only [FlowRun.await, hp, hf, Sys.Get0_childCompleted]
        rw [hr]
        exact ⟨h.await_failed p stp _ _ _ hp, fun hs => by simp at hs⟩

theorem FlowRun.awaitAll_cons (r : FlowRun) (p : Nat) (ps : List Nat) (acc : List Val) :
    r.awaitAll (p :: ps) acc =
      if (r.await p).1.stop.isSome then ((r.await p).1, acc)
      else (r.await p).1.awaitAll ps (acc ++ (r.await p).2) := rfl

theorem FlowRun.awaitAll_frame (ps : List Nat) (q : Nat) (hq : q ∉ ps) :
    ∀ (r : FlowRun) (acc : List Val), (r.awaitAll ps acc).1.steps[q]? = r.steps[q]? := by
  induction ps with
  | nil =>
    intro r acc
    rfl
  | cons p ps ih =>
    intro r acc
    have hqp : q ≠ p := fun hcon => hq (by simp [hcon])
    have hqps : q ∉ ps := fun hcon => hq (by simp [hcon])
    rw [FlowRun.awaitAll_cons]
    split
    · exact FlowRun.await_frame r p q hqp
    · rw [ih hqps, FlowRun.await_frame r p q hqp]

theorem FlowRun.awaitAll_log (ps : List Nat) (e : Event) :
    ∀ (r : FlowRun) (acc : List Val), e ∈ r.log → e ∈ (r.awaitAll ps acc).1.log := by
  induction ps with
  | nil =>
    intro r acc he
    exact he
  | cons p ps ih =>
    intro r acc he
    rw [FlowRun.awaitAll_cons]
    split
    · exact FlowRun.await_log r p e he
    · exact ih _ _ (FlowRun.await_log r p e he)

/-- The waits of a `COMBINE` step keep `FlowRun.Sound`, and when the loop goes on the
collected values are the values of the waits, joined in order. -/
theorem FlowRun.Sound.awaitAll_sound {es : ExecutorService} {steps0 : List step}
    (ps : List Nat) :
    ∀ (r : FlowRun) (acc : List Val), FlowRun.Sound es steps0 r → r.stop = none →
      FlowRun.Sound es steps0 (r.awaitAll ps acc).1 ∧
      ((r.awaitAll ps acc).1.stop = none →
        ∃ rs : List (List Val), rs.length = ps.length ∧
          (r.awaitAll ps acc).2 = acc ++ rs.flatten ∧
          ∀ (j : Nat) (vals : List Val), rs[j]? = some vals →
            ∃ p, ps[j]? = some p ∧ Event.waited p vals ∈ (r.awaitAll ps acc).1.log) := by
  induction ps with
  | nil =>
    intro r acc h _
    exact ⟨h, fun _ => ⟨[], rfl, by simp [FlowRun.awaitAll], by simp⟩⟩
  | cons p ps ih =>
    intro r acc h hstop
    obtain ⟨h1, hw1⟩ := h.await_sound hstop p
    rw [FlowRun.awaitAll_cons]
    cases hs1 : (r.await p).1.stop with
    | some x =>
      simp only [Option.isSome_some, if_true]
      exact ⟨h1, fun hcon => by rw [hs1] at hcon; cases hcon⟩
    | none =>
      simp only [Option.isSome_none, Bool.false_eq_true, if_false]
      obtain ⟨h2, hw2⟩ := ih (r.await p).1 (acc ++ (r.await p).2) h1 hs1
      refine ⟨h2, fun hs2 => ?_⟩
      obtain ⟨rs, hlen, hacc, hw⟩ := hw2 hs2
      refine ⟨(r.await p).2 :: rs, by simp [hlen], by simp [hacc], ?_⟩
      intro j vals hj
      cases j with
      | zero =>
        simp only [List.getElem?_cons_zero, Option.some.injEq] at hj
        subst hj
        exact ⟨p, by simp, FlowRun.awaitAll_log ps _ _ _ (hw1 hs1)⟩
      | succ j =>
        simp only [List.getElem?_cons_succ] at hj
        obtain ⟨q, hq, hwq⟩ := hw j vals hj
        exact ⟨q, by simpa using hq, hwq⟩

/-- One iteration of the loop keeps `FlowRun.Sound`. -/
theorem FlowRun.Sound.iteration_sound {es : ExecutorService} {steps0 : List step}
    {r : FlowRun} (sched : Nat → Bool) (h : FlowRun.Sound es steps0 r) (i : Nat) :
    FlowRun.Sound es steps0 (FlowRun.iteration es sched r i) := by
  cases hstop : r.stop with
  | some x =>
    have : FlowRun.iteration es sched r i = r := by simp [FlowRun.iteration, hstop]
    rw [this]
    exact h
  | none =>
    cases hi : r.steps[i]? with
    | none =>
      have : FlowRun.iteration es sched r i = { r with stop := some Stop.panicked } := by
        simp [FlowRun.iteration, hstop, hi]
      rw [this]
      exact h.stopped _
    | some currentStp =>
      cases hop : currentStp.op with
      | CALL =>
        have : FlowRun.iteration es sched r i =
            r.launch es sched i currentStp currentStp.paramsPassed := by
          simp [FlowRun.iteration, hstop, hi, hop]
        rw [this]
        exact h.launch_sound sched hstop i currentStp _ hi
          (fun hcon => by rw [hop] at hcon; cases hcon)
      | AND =>
        have : FlowRun.iteration es sched r i =
            r.launch es sched i currentStp currentStp.paramsPassed := by
          simp [FlowRun.iteration, hstop, hi, hop]
        rw [this]
        exact h.launch_sound sched hstop i currentStp _ hi
          (fun hcon => by rw [hop] at hcon; cases hcon)
      | APPLY =>
        by_cases hi0 : i = 0
        · subst hi0
          have : FlowRun.iteration es sched r 0 = { r with stop := some Stop.panicked } := by
            simp [FlowRun.iteration, hstop, hi, hop]
          rw [this]
          exact h.stopped _
        · obtain ⟨h1, _⟩ := h.await_sound hstop (i - 1)
          cases hs1 : (r.await (i - 1)).1.stop with
          | some x =>
            have : FlowRun.iteration es sched r i = (r.await (i - 1)).1 := by
              simp [FlowRun.iteration, hstop, hi, hop, hi0, hs1]
            rw [this]
            exact h1
          | none =>
            have : FlowRun.iteration es sched r i =
                (r.await (i - 1)).1.launch es sched i currentStp (r.await (i - 1)).2 := by
              simp [FlowRun.iteration, hstop, hi, hop, hi0, hs1]
            rw [this]
            have hi1 : (r.await (i - 1)).1.steps[i]? = some currentStp := by
              rw [FlowRun.await_frame r (i - 1) i (by omega), hi]
            exact h1.launch_sound sched hs1 i currentStp _ hi1
              (fun hcon => by rw [hop] at hcon; cases hcon)
      | COMBINE =>
        have hcs : combineStart r.steps i = combineStart steps0 i :=
          combineStart_congr r.steps steps0 i
            (fun p st hp => by
              obtain ⟨st0, h0, _, _, ho⟩ := h.static p st hp
              exact ⟨st0, h0, ho⟩)
            h.length_eq
        obtain ⟨h1, hw1⟩ := FlowRun.Sound.awaitAll_sound
          (List.range' (combineStart steps0 i) (i - combineStart steps0 i)) r [] h hstop
        cases hs1 : (r.awaitAll
            (List.range' (combineStart steps0 i) (i - combineStart steps0 i)) []).1.stop with
        | some x =>
          have : FlowRun.iteration es sched r i = (r.awaitAll
              (List.range' (combineStart steps0 i) (i - combineStart steps0 i)) []).1 := by
            simp [FlowRun.iteration, hstop, hi, hop, hcs, hs1]
          rw [this]
          exact h1
        | none =>
          have : FlowRun.iteration es sched r i =
              (r.awaitAll
                (List.range' (combineStart steps0 i) (i - combineStart steps0 i)) []).1.launch
                es sched i currentStp
                (r.awaitAll
                  (List.range' (combineStart steps0 i) (i - combineStart steps0 i)) []).2 := by
            simp [FlowRun.iteration, hstop, hi, hop, hcs, hs1]
          rw [this]
          have hi1 : (r.awaitAll
              (List.range' (combineStart steps0 i) (i - combineStart steps0 i)) []).1.steps[i]? =
              some currentStp := by
            rw [FlowRun.awaitAll_frame _ i (by simp [List.mem_range']; omega), hi]
          refine h1.launch_sound sched hs1 i currentStp _ hi1 (fun _ => ?_)
          obtain ⟨rs, hlen, hacc, hw⟩ := hw1 hs1
          refine ⟨rs, by simpa using hlen, by simpa using hacc, ?_⟩
          intro j vals hj
          obtain ⟨p, hp, hwp⟩ := hw j vals hj
          have hjlt : j < i - combineStart steps0 i := by
            have hjr := (List.getElem?_eq_some_iff.1 hj).1
            have hlr : rs.length = i - combineStart steps0 i := by simpa using hlen
            omega
          rw [List.getElem?_range' _ _ hjlt] at hp
          simp only [Nat.one_mul, Option.some.injEq] at hp
          subst hp
          exact hwp

theorem FlowRun.Sound.loop_sound {es : ExecutorService} {steps0 : List step} {r : FlowRun}
    (sched : Nat → Bool) (h : FlowRun.Sound es steps0 r) (n : Nat) :
    FlowRun.Sound es steps0 (FlowRun.loop es sched r n) := by
  induction n with
  | zero => simpa [FlowRun.loop] using h
  | succ n ih =>
    rw [FlowRun.loop_succ]
    exact ih.iteration_sound sched n

/-- The log of `runFlow` is the log of the loop, followed by the events of the last
`Get(0)` when the loop was not left early. -/
theorem Flow.runFlow_log (fl : Flow) (sched : Nat → Bool) :
    (fl.runFlow sched).1.log =
      if (FlowRun.loop fl.es sched { steps := fl.steps, log := [], stop := none }
          fl.steps.length).stop.isSome ∨ fl.steps.length = 0 then
        (FlowRun.loop fl.es sched { steps := fl.steps, log := [], stop := none }
          fl.steps.length).log
      else
        ((FlowRun.loop fl.es sched { steps := fl.steps, log := [], stop := none }
          fl.steps.length).await (fl.steps.length - 1)).1.log := by
  obtain ⟨r, hr⟩ : ∃ r, FlowRun.loop fl.es sched { steps := fl.steps, log := [], stop := none }
      fl.steps.length = r := ⟨_, rfl⟩
  simp only [Flow.runFlow, hr]
  cases hs : r.stop with
  | some x => cases x <;> simp
  | none =>
    by_cases hlen : fl.steps.length = 0
    · simp [hlen]
    · cases hl : r.steps[fl.steps.length - 1]? with
      | none => simp [FlowRun.await, hs, hlen, hl]
      | some last =>
        cases hf : last.future with
        | none => simp [FlowRun.await, hs, hlen, hl, hf]
        | some s =>
          cases hg : s.Get0 with
          | none => simp [FlowRun.await, hs, hlen, hl, hf, hg]
          | some x =>
            obtain ⟨s1, vals, err⟩ := x
            cases err <;> simp [FlowRun.await, hs, hlen, hl, hf, hg]

/-- C10, amended: in every flow whose steps hold no future yet (as the builder calls leave
them), under every schedule of the pool, when the future of a `COMBINE` step at index `i`
is created with arguments `args`: with `s = combineStart fl.steps i`, (1) `s` is 0, or it is
the index of an `APPLY` or `COMBINE` step before `i`; (2) every step strictly between `s`
and `i` is a `CALL` or `AND` step, so `s` is the most recent such step; (3) `args` is the
concatenation, in step order, of `i - s` lists, the list number `j` being the values that
the wait for step `s + j` returned, which are the results of the target of step `s + j` on
the arguments its future was created with. The step `s` itself is the first one collected
from. -/
theorem COMBINE_arguments_start_at_last_APPLY_or_COMBINE (fl : Flow) (sched : Nat → Bool)
    (i : Nat) (c : step) (args : List Val)
    (hfresh : ∀ st ∈ fl.steps, st.future = none)
    (hc : fl.steps[i]? = some c) (hop : c.op = OpType.COMBINE)
    (hcreated : Event.created i args ∈ (fl.runFlow sched).1.log) :
    (combineStart fl.steps i = 0 ∨
      (combineStart fl.steps i < i ∧ ∃ st, fl.steps[combineStart fl.steps i]? = some st ∧
        (st.op = OpType.APPLY ∨ st.op = OpType.COMBINE))) ∧
    (∀ (p : Nat) (st : step), combineStart fl.steps i < p → p < i → fl.steps[p]? = some st →
      st.op = OpType.CALL ∨ st.op = OpType.AND) ∧
    ∃ rs : List (List Val), rs.length = i - combineStart fl.steps i ∧ args = rs.flatten ∧
      ∀ (j : Nat) (vals : List Val), rs[j]? = some vals →
        Event.waited (combineStart fl.steps i + j) vals ∈ (fl.runFlow sched).1.log ∧
        ∃ (st : step) (a : List Val), fl.steps[combineStart fl.steps i + j]? = some st ∧
          Event.created (combineStart fl.steps i + j) a ∈ (fl.runFlow sched).1.log ∧
          vals = st.targetFunc.results a := by
  have hloop : FlowRun.Sound fl.es fl.steps
      (FlowRun.loop fl.es sched { steps := fl.steps, log := [], stop := none }
        fl.steps.length) :=
    (FlowRun.Sound.initial fl.es fl.steps hfresh).loop_sound sched fl.steps.length
  have key : ∃ r : FlowRun, FlowRun.Sound fl.es fl.steps r ∧
      (fl.runFlow sched).1.log = r.log := by
    rw [Flow.runFlow_log]
    split
    · exact ⟨_, hloop, rfl⟩
    · next hcond =>
      have hnone : (FlowRun.loop fl.es sched { steps := fl.steps, log := [], stop := none }
          fl.steps.length).stop = none := by
        cases hso : (FlowRun.loop fl.es sched { steps := fl.steps, log := [], stop := none }
            fl.steps.length).stop with
        | none => rfl
        | some x => exact absurd (Or.inl (by simp [hso])) hcond
      exact ⟨_, (hloop.await_sound hnone _).1, rfl⟩
  obtain ⟨r, hr, hlog⟩ := key
  rw [hlog] at hcreated ⊢
  obtain ⟨rs, hlen, hflat, hw⟩ := hr.combine_ok i args c hcreated hc hop
  refine ⟨(combineStart_spec fl.steps i).1, (combineStart_spec fl.steps i).2,
    rs, hlen, hflat, fun j vals hj => ⟨hw j vals hj, ?_⟩⟩
  obtain ⟨st0, a, h0, ha, hv⟩ := hr.waited_ok _ vals (hw j vals hj)
  exact ⟨st0, a, h0, ha, hv⟩

/-- C10, amended, at `NewFlow(hundred).ThenApply(double).AndCall(sixty).ThenCombine(add)`:
`add` at index 3 is created with `[200, 60]`, which is the result of `double` (step 1, the
last `APPLY`) followed by the result of `sixty` (step 2). -/
theorem COMBINE_arguments_start_at_last_APPLY_or_COMBINE_witness :
    (∀ st ∈ chainFlow.steps, st.future = none) ∧
    chainFlow.steps[3]? = some (step.declared OpType.COMBINE addTarget []) ∧
    (step.declared OpType.COMBINE addTarget []).op = OpType.COMBINE ∧
    Event.created 3 [Val.int 200, Val.int 60] ∈ (chainFlow.runFlow (fun _ => true)).1.log ∧
    ((combineStart chainFlow.steps 3 = 0 ∨
      (combineStart chainFlow.steps 3 < 3 ∧
        ∃ st, chainFlow.steps[combineStart chainFlow.steps 3]? = some st ∧
          (st.op = OpType.APPLY ∨ st.op = OpType.COMBINE))) ∧
    (∀ (p : Nat) (st : step), combineStart chainFlow.steps 3 < p → p < 3 →
      chainFlow.steps[p]? = some st → st.op = OpType.CALL ∨ st.op = OpType.AND) ∧
    ∃ rs : List (List Val), rs.length = 3 - combineStart chainFlow.steps 3 ∧
      [Val.int 200, Val.int 60] = rs.flatten ∧
      ∀ (j : Nat) (vals : List Val), rs[j]? = some vals →
        Event.waited (combineStart chainFlow.steps 3 + j) vals ∈
          (chainFlow.runFlow (fun _ => true)).1.log ∧
        ∃ (st : step) (a : List Val),
          chainFlow.steps[combineStart chainFlow.steps 3 + j]? = some st ∧
          Event.created (combineStart chainFlow.steps 3 + j) a ∈
            (chainFlow.runFlow (fun _ => true)).1.log ∧
          vals = st.targetFunc.results a) :=
  have hfresh : ∀ st ∈ chainFlow.steps, st.future = none := by
    intro st hst
    simp only [chainFlow, List.mem_cons, List.mem_singleton, List.not_mem_nil, or_false] at hst
    rcases hst with rfl | rfl | rfl | rfl <;> rfl
  have hlog : (chainFlow.runFlow (fun _ => true)).1.log =
      [Event.created 0 [], Event.invoked 0 [], Event.waited 0 [Val.int 100],
       Event.created 1 [Val.int 100], Event.invoked 1 [Val.int 100],
       Event.created 2 [], Event.invoked 2 [],
       Event.waited 1 [Val.int 200], Event.waited 2 [Val.int 60],
       Event.created 3 [Val.int 200, Val.int 60], Event.invoked 3 [Val.int 200, Val.int 60],
       Event.waited 3 [Val.int 260]] := rfl
  have hcreated : Event.created 3 [Val.int 200, Val.int 60] ∈
      (chainFlow.runFlow (fun _ => true)).1.log := by
    rw [hlog]
    simp
  ⟨hfresh, rfl, rfl, hcreated,
    COMBINE_arguments_start_at_last_APPLY_or_COMBINE chainFlow (fun _ => true) 3
      (step.declared OpType.COMBINE addTarget []) [Val.int 200, Val.int 60]
      hfresh rfl rfl hcreated⟩

end Workflow

namespace Workflow

/-! ## Argument mismatch in a flow step -/

/-- When `runFlow` returns an error, `Flow.Get(0)` after `Flow.Execute` returns that
error. -/
theorem Flow.Get0_of_runFlow_error (fl : Flow) (sched : Nat → Bool) (vals : List Val)
    (e : Error) (hro : fl.runOnce = false)
    (hout : (fl.runFlow sched).2 = Outcome.returned vals (some e)) :
    (fl.Execute sched).Get0 sched =
      some ({ fl with
        runOnce := true
        future := some (Sys.childCompleted fl.es (fl.runFlowTarget sched) []) },
        [], some e) := by
  rw [Flow.Execute_fresh fl sched hro]
  have hrun : Flow.runFlow { fl with
      runOnce := true
      future := some (Sys.childSubmitted fl.es (fl.runFlowTarget sched) []) } sched =
      fl.runFlow sched := Flow.runFlow_congr _ _ _ rfl rfl
  have hget := Sys.Get0_childLaunched fl.es false (fl.runFlowTarget sched) []
  simp only [Sys.childLaunched, Bool.false_eq_true, if_false] at hget
  have hres : (fl.runFlowTarget sched).results [] = [Val.slice vals, Val.err e] := by
    rw [Target.results_nil]
    simp only [Flow.runFlowTarget, hout]
  simp only [Flow.Get0, hrun, hout, hget, hres]

theorem FlowRun.iteration_stopped (es : ExecutorService) (sched : Nat → Bool) (r : FlowRun)
    (i : Nat) (h : r.stop.isSome = true) : FlowRun.iteration es sched r i = r := by
  simp [FlowRun.iteration, h]

/-- Once the loop is left, the later iterations do nothing. -/
theorem FlowRun.loop_stopped (es : ExecutorService) (sched : Nat → Bool) (r : FlowRun)
    (n m : Nat) (h : (FlowRun.loop es sched r n).stop.isSome = true) (hm : n ≤ m) :
    FlowRun.loop es sched r m = FlowRun.loop es sched r n := by
  induction m with
  | zero =>
    have : n = 0 := by omega
    subst this
    rfl
  | succ m ih =>
    by_cases hnm : n = m + 1
    · subst hnm
      rfl
    · rw [FlowRun.loop_succ, ih (by omega), FlowRun.iteration_stopped es sched _ m h]

/-- A `CALL` or `AND` step whose target is a non-variadic function given a wrong number of
arguments: when the loop of `runFlow` gets to it, `runFlow` returns the step error that
wraps the mismatch error of `RunAsync`. -/
theorem Flow.runFlow_mismatch (fl : Flow) (sched : Nat → Bool) (i : Nat) (st : step)
    (hst : fl.steps[i]? = some st) (hop : st.op = OpType.CALL ∨ st.op = OpType.AND)
    (hk : st.targetFunc.kind = Kind.Func) (hv : st.targetFunc.isVariadic = false)
    (hn : st.targetFunc.numIn ≠ st.paramsPassed.length)
    (hfresh : ∀ st ∈ fl.steps, st.future = none)
    (hreach : (FlowRun.loop fl.es sched { steps := fl.steps, log := [], stop := none }
      i).stop = none) :
    (fl.runFlow sched).2 = Outcome.returned [] (some (Error.stepFailed i st.op
      (Error.mismatch st.targetFunc.numIn st.paramsPassed.length))) := by
  have hS : FlowRun.Sound fl.es fl.steps
      (FlowRun.loop fl.es sched { steps := fl.steps, log := [], stop := none } i) :=
    (FlowRun.Sound.initial fl.es fl.steps hfresh).loop_sound sched i
  have hlt : i < fl.steps.length := by
    by_contra hcon
    rw [List.getElem?_eq_none (by omega)] at hst
    cases hst
  obtain ⟨st1, hst1⟩ : ∃ st1, (FlowRun.loop fl.es sched
      { steps := fl.steps, log := [], stop := none } i).steps[i]? = some st1 :=
    ⟨_, List.getElem?_eq_getElem (by rw [hS.length_eq]; exact hlt)⟩
  obtain ⟨st0, h0, ht, hp, ho⟩ := hS.static i st1 hst1
  rw [hst] at h0
  cases h0
  have herr : RunAsync st1.targetFunc st1.paramsPassed =
      Except.error (Error.mismatch st.targetFunc.numIn st.paramsPassed.length) := by
    rw [ht, hp]
    simp [RunAsync, hk, hv, hn]
  have hit : FlowRun.iteration fl.es sched
      (FlowRun.loop fl.es sched { steps := fl.steps, log := [], stop := none } i) i =
      (FlowRun.loop fl.es sched { steps := fl.steps, log := [], stop := none } i).launch
        fl.es sched i st1 st1.paramsPassed := by
    simp only [FlowRun.iteration, hreach, Option.isSome_none, Bool.false_eq_true, if_false,
      hst1]
    rcases hop with h | h <;> simp only [ho, h]
  have hnext : FlowRun.loop fl.es sched { steps := fl.steps, log := [], stop := none }
      (i + 1) =
      { FlowRun.loop fl.es sched { steps := fl.steps, log := [], stop := none } i with
        stop := some (Stop.returned (Error.stepFailed i st.op
          (Error.mismatch st.targetFunc.numIn st.paramsPassed.length))) } := by
    rw [FlowRun.loop_succ, hit, FlowRun.launch_error fl.es sched _ i st1 st1.paramsPassed _ herr,
      ho]
  have hall : FlowRun.loop fl.es sched { steps := fl.steps, log := [], stop := none }
      fl.steps.length =
      { FlowRun.loop fl.es sched { steps := fl.steps, log := [], stop := none } i with
        stop := some (Stop.returned (Error.stepFailed i st.op
          (Error.mismatch st.targetFunc.numIn st.paramsPassed.length))) } := by
    rw [FlowRun.loop_stopped fl.es sched _ (i + 1) fl.steps.length (by rw [hnext]; rfl)
      (by omega), hnext]
  simp only [Flow.runFlow, hall]

/-- C11 as stated fails: `one` is a non-variadic function with no parameter, and
`NewFlow(one, 5)` gives it one argument. The builder call does not fail, it returns the flow
with that step; the mismatch is first found by `RunAsync` inside `runFlow`, which returns
the step error, and `Flow.Get(0)` after `Flow.Execute` returns it. -/
theorem NewFlow_accepts_wrong_arity_reported_by_Get :
    oneTarget.kind = Kind.Func ∧ oneTarget.isVariadic = false ∧
    oneTarget.numIn = 0 ∧ [Val.int 5].length = 1 ∧
    NewFlow oneTarget [Val.int 5] = some oneArgTooManyFlow ∧
    (oneArgTooManyFlow.runFlow (fun _ => true)).2 =
      Outcome.returned [] (some (Error.stepFailed 0 OpType.CALL (Error.mismatch 0 1))) ∧
    (oneArgTooManyFlow.runFlow (fun _ => true)).1.log = [] ∧
    (oneArgTooManyFlow.Execute (fun _ => true)).Get0 (fun _ => true) =
      some ({ oneArgTooManyFlow with
        runOnce := true
        future := some (Sys.childCompleted default_es
          (oneArgTooManyFlow.runFlowTarget (fun _ => true)) []) },
        [], some (Error.stepFailed 0 OpType.CALL (Error.mismatch 0 1))) :=
  ⟨rfl, rfl, rfl, rfl, rfl, rfl, rfl,
    Flow.Get0_of_runFlow_error oneArgTooManyFlow (fun _ => true) [] _ rfl rfl⟩

/-- C11, amended: the builder calls `NewFlow` and `AndCall` test the kind of the callable
and nothing else. (1) When the callable is not a function, the builder call fails: it
returns no flow. (2) When it is a function, the builder call returns the flow with the step
for the callable and the arguments, whatever the number of arguments. (3) When it is a
non-variadic function whose parameter count differs from the number of arguments, the
problem is reported at run time: in every flow `built` that holds such a `CALL` or `AND`
step at index `i`, on which `Execute` has not run, if the loop of `runFlow` gets to step
`i` then `runFlow` returns the step error that wraps the argument-mismatch error, and
`Flow.Get(0)` after `Flow.Execute` returns that error. -/
theorem builders_test_kind_only_arity_reported_by_runFlow (targetFunc : Target)
    (args : List Val) (fl built : Flow) (sched : Nat → Bool) (i : Nat) (st : step) :
    (targetFunc.kind ≠ Kind.Func →
      NewFlow targetFunc args = none ∧ fl.AndCall targetFunc args = none) ∧
    (targetFunc.kind = Kind.Func →
      NewFlow targetFunc args = some
        { steps := [step.declared OpType.CALL targetFunc args]
          future := none
          runOnce := false
          es := default_es } ∧
      fl.AndCall targetFunc args = some
        { fl with steps := fl.steps ++ [step.declared OpType.AND targetFunc args] }) ∧
    (targetFunc.kind = Kind.Func → targetFunc.isVariadic = false →
      targetFunc.numIn ≠ args.length →
      built.steps[i]? = some st →
      (st = step.declared OpType.CALL targetFunc args ∨
        st = step.declared OpType.AND targetFunc args) →
      (∀ s ∈ built.steps, s.future = none) → built.runOnce = false →
      (FlowRun.loop built.es sched { steps := built.steps, log := [], stop := none }
        i).stop = none →
      (built.runFlow sched).2 = Outcome.returned [] (some (Error.stepFailed i st.op
        (Error.mismatch targetFunc.numIn args.length))) ∧
      (built.Execute sched).Get0 sched =
        some ({ built with
          runOnce := true
          future := some (Sys.childCompleted built.es (built.runFlowTarget sched) []) },
          [], some (Error.stepFailed i st.op
            (Error.mismatch targetFunc.numIn args.length)))) := by
  refine ⟨?_, ?_, ?_⟩
  · intro hk
    constructor
    · unfold NewFlow
      split
      · next h => exact absurd h hk
      · rfl
    · unfold Flow.AndCall
      split
      · next h => exact absurd h hk
      · rfl
  · intro hk
    constructor
    · simp only [NewFlow, hk, step.declared]
    · simp only [Flow.AndCall, hk, step.declared]
  · intro hk hv hn hst hdecl hfresh hro hreach
    have ht : st.targetFunc = targetFunc := by
      rcases hdecl with h | h <;> rw [h] <;> rfl
    have hp : st.paramsPassed = args := by
      rcases hdecl with h | h <;> rw [h] <;> rfl
    have hop : st.op = OpType.CALL ∨ st.op = OpType.AND := by
      rcases hdecl with h | h
      · exact Or.inl (by rw [h]; rfl)
      · exact Or.inr (by rw [h]; rfl)
    have hout := Flow.runFlow_mismatch built sched i st hst hop (by rw [ht]; exact hk)
      (by rw [ht]; exact hv) (by rw [ht, hp]; exact hn) hfresh hreach
    rw [ht, hp] at hout
    exact ⟨hout, Flow.Get0_of_runFlow_error built sched [] _ hro hout⟩

/-- C11, amended, at `NewFlow(one).AndCall(add, 1)`: `add` takes two parameters and is given
one argument; `AndCall` returns the flow, the loop of `runFlow` launches step 0 and gets to
step 1, and `Flow.Get(0)` returns the step error of step 1. -/
theorem builders_test_kind_only_arity_reported_by_runFlow_witness :
    addTarget.kind = Kind.Func ∧ addTarget.isVariadic = false ∧
    addTarget.numIn ≠ [Val.int 1].length ∧
    combineFlow0.AndCall addTarget [Val.int 1] = some addOneArgFlow ∧
    addOneArgFlow.steps[1]? = some (step.declared OpType.AND addTarget [Val.int 1]) ∧
    (∀ s ∈ addOneArgFlow.steps, s.future = none) ∧ addOneArgFlow.runOnce = false ∧
    (FlowRun.loop addOneArgFlow.es (fun _ => true)
      { steps := addOneArgFlow.steps, log := [], stop := none } 1).stop = none ∧
    (addOneArgFlow.runFlow (fun _ => true)).2 =
      Outcome.returned [] (some (Error.stepFailed 1 OpType.AND (Error.mismatch 2 1))) ∧
    (addOneArgFlow.Execute (fun _ => true)).Get0 (fun _ => true) =
      some ({ addOneArgFlow with
        runOnce := true
        future := some (Sys.childCompleted addOneArgFlow.es
          (addOneArgFlow.runFlowTarget (fun _ => true)) []) },
        [], some (Error.stepFailed 1 OpType.AND (Error.mismatch 2 1))) :=
  have hfresh : ∀ s ∈ addOneArgFlow.steps, s.future = none := by
    intro s hs
    simp only [addOneArgFlow, List.mem_cons, List.mem_singleton, List.not_mem_nil,
      or_false] at hs
    rcases hs with rfl | rfl <;> rfl
  have h := (builders_test_kind_only_arity_reported_by_runFlow addTarget [Val.int 1]
    combineFlow0 addOneArgFlow (fun _ => true) 1
    (step.declared OpType.AND addTarget [Val.int 1]))
  ⟨rfl, rfl, by decide, (h.2.1 rfl).2, rfl, hfresh, rfl, rfl,
    (h.2.2 rfl rfl (by decide) rfl (Or.inr rfl) hfresh rfl rfl).1,
    (h.2.2 rfl rfl (by decide) rfl (Or.inr rfl) hfresh rfl rfl).2⟩

end Workflow

namespace Workflow

/-! ## The reads of `runFlow` are defined -/

theorem FlowRun.Defined.of_stopped {steps0 : List step} {i : Nat} {r : FlowRun}
    (h : FlowRun.Defined steps0 i r) (j : Nat) (hs : r.stop ≠ none) :
    FlowRun.Defined steps0 j r :=
  { length_eq := h.length_eq
    ops := h.ops
    launched := fun hn => absurd hn hs
    no_panic := h.no_panic }

theorem FlowRun.Defined.stop_returned {steps0 : List step} {i : Nat} {r : FlowRun}
    (h : FlowRun.Defined steps0 i r) (j : Nat) (err : Error) :
    FlowRun.Defined steps0 j { r with stop := some (Stop.returned err) } :=
  { length_eq := h.length_eq
    ops := h.ops
    launched := fun hn => by simp at hn
    no_panic := by simp }

theorem FlowRun.Defined.stop_blocked {steps0 : List step} {i : Nat} {r : FlowRun}
    (h : FlowRun.Defined steps0 i r) (j : Nat) :
    FlowRun.Defined steps0 j { r with stop := some Stop.blocked } :=
  { length_eq := h.length_eq
    ops := h.ops
    launched := fun hn => by simp at hn
    no_panic := by simp }

/-- Storing a future in step `p` keeps the length and the operators, and the steps that had
a future still have one. -/
theorem FlowRun.Defined.set_future {steps0 : List step} {i : Nat} {r : FlowRun}
    (h : FlowRun.Defined steps0 i r) (p : Nat) (stp : step) (s1 : Sys) (log : List Event)
    (stop : Option Stop) (hp : r.steps[p]? = some stp) (hstop : stop ≠ some Stop.panicked)
    (hr : r.stop = none) (j : Nat) (hj : j ≤ i ∨ j = p + 1 ∧ p = i) :
    FlowRun.Defined steps0 j
      { steps := r.steps.set p (stp.setFuture s1), log := log, stop := stop } := by
  have hlt : p < r.steps.length := by
    by_contra hcon
    rw [List.getElem?_eq_none (by omega)] at hp
    cases hp
  constructor
  · simpa using h.length_eq
  · intro q st hq
    by_cases hqp : q = p
    · subst hqp
      simp only [List.getElem?_set_self hlt, Option.some.injEq] at hq
      subst hq
      simpa using h.ops q stp hp
    · simp only [List.getElem?_set_ne (Ne.symm hqp)] at hq
      exact h.ops q st hq
  · intro _ q hq
    by_cases hqp : q = p
    · subst hqp
      exact ⟨stp.setFuture s1, s1, by simp [List.getElem?_set_self hlt], rfl⟩
    · simp only [List.getElem?_set_ne (Ne.symm hqp)]
      exact h.launched hr q (by omega)
  · exact hstop

theorem FlowRun.Defined.launch_defined {steps0 : List step} {i : Nat} {r : FlowRun}
    (es : ExecutorService) (sched : Nat → Bool) (h : FlowRun.Defined steps0 i r)
    (hstop : r.stop = none) (stp : step) (args : List Val) (hi : r.steps[i]? = some stp) :
    FlowRun.Defined steps0 (i + 1) (r.launch es sched i stp args) := by
  cases hr : RunAsync stp.targetFunc args with
  | error err =>
    rw [FlowRun.launch_error es sched r i stp args err hr]
    exact h.stop_returned _ _
  | ok ftr =>
    rw [FlowRun.launch_ok es sched r i stp args ftr hr]
    exact h.set_future i stp _ _ _ hi (by rw [hstop]; simp) hstop (i + 1) (Or.inr ⟨rfl, rfl⟩)

theorem FlowRun.Defined.await_defined {steps0 : List step} {i : Nat} {r : FlowRun}
    (h : FlowRun.Defined steps0 i r) (hstop : r.stop = none) (p : Nat) (hp : p < i) :
    FlowRun.Defined steps0 i (r.await p).1 := by
  obtain ⟨stp, s, hst, hf⟩ := h.launched hstop p hp
  cases hg : s.Get0 with
  | none =>
    have hr : r.await p = ({ r with stop := some Stop.blocked }, []) := by
      simp [FlowRun.await, hst, hf, hg]
    rw [hr]
    exact h.stop_blocked _
  | some x =>
    obtain ⟨s1, vals, err⟩ := x
    cases err with
    | some e =>
      have hr : r.await p =
          ({ r with
            steps := r.steps.set p (stp.setFuture s1)
            log := r.log ++ (s1.calls.drop s.calls.length).map (Event.invoked p)
            stop := some (Stop.returned (Error.stepFailed p stp.op e)) }, []) := by
        simp [FlowRun.await, hst, hf, hg]
      rw [hr]
      exact h.set_future p stp s1 _ _ hst (by simp) hstop i (Or.inl (Nat.le_refl _))
    | none =>
      have hr : r.await p =
          ({ r with
            steps := r.steps.set p (stp.setFuture s1)
            log := r.log ++ (s1.calls.drop s.calls.length).map (Event.invoked p)
              ++ [Event.waited p vals] }, vals) := by
        simp [FlowRun.await, hst, hf, hg]
      rw [hr]
      exact h.set_future p stp s1 _ _ hst (by rw [hstop]; simp) hstop i
        (Or.inl (Nat.le_refl _))

theorem FlowRun.Defined.awaitAll_defined {steps0 : List step} {i : Nat} (ps : List Nat)
    (hps : ∀ p ∈ ps, p < i) :
    ∀ (r : FlowRun) (acc : List Val), FlowRun.Defined steps0 i r → r.stop = none →
      FlowRun.Defined steps0 i (r.awaitAll ps acc).1 := by
  induction ps with
  | nil =>
    intro r acc h _
    exact h
  | cons p ps ih =>
    intro r acc h hstop
    have h1 := h.await_defined hstop p (hps p (by simp))
    rw [FlowRun.awaitAll_cons]
    cases hs1 : (r.await p).1.stop with
    | some x =>
      simp only [Option.isSome_some, if_true]
      exact h1
    | none =>
      simp only [Option.isSome_none, Bool.false_eq_true, if_false]
      exact ih (fun q hq => hps q (by simp [hq])) _ _ h1 hs1

/-- One iteration of the loop: from the start of iteration `i` to the start of iteration
`i + 1`. -/
theorem FlowRun.Defined.iteration_defined {steps0 : List step} {i : Nat} {r : FlowRun}
    (es : ExecutorService) (sched : Nat → Bool) (h : FlowRun.Defined steps0 i r)
    (hi : i < steps0.length)
    (hfirst : ∀ st0 : step, steps0[0]? = some st0 → st0.op ≠ OpType.APPLY) :
    FlowRun.Defined steps0 (i + 1) (FlowRun.iteration es sched r i) := by
  cases hstop : r.stop with
  | some x =>
    have : FlowRun.iteration es sched r i = r := by simp [FlowRun.iteration, hstop]
    rw [this]
    exact h.of_stopped _ (by rw [hstop]; simp)
  | none =>
    obtain ⟨currentStp, hcur⟩ : ∃ currentStp, r.steps[i]? = some currentStp :=
      ⟨_, List.getElem?_eq_getElem (by rw [h.length_eq]; exact hi)⟩
    cases hop : currentStp.op with
    | CALL =>
      have : FlowRun.iteration es sched r i =
          r.launch es sched i currentStp currentStp.paramsPassed := by
        simp [FlowRun.iteration, hstop, hcur, hop]
      rw [this]
      exact h.launch_defined es sched hstop currentStp _ hcur
    | AND =>
      have : FlowRun.iteration es sched r i =
          r.launch es sched i currentStp currentStp.paramsPassed := by
        simp [FlowRun.iteration, hstop, hcur, hop]
      rw [this]
      exact h.launch_defined es sched hstop currentStp _ hcur
    | APPLY =>
      have hi0 : i ≠ 0 := by
        intro hcon
        subst hcon
        obtain ⟨st0, h0, ho⟩ := h.ops 0 currentStp hcur
        exact hfirst st0 h0 (by rw [← ho, hop])
      have h1 := h.await_defined hstop (i - 1) (by omega)
      cases hs1 : (r.await (i - 1)).1.stop with
      | some x =>
        have : FlowRun.iteration es sched r i = (r.await (i - 1)).1 := by
          simp [FlowRun.iteration, hstop, hcur, hop, hi0, hs1]
        rw [this]
        exact h1.of_stopped _ (by rw [hs1]; simp)
      | none =>
        have : FlowRun.iteration es sched r i =
            (r.await (i - 1)).1.launch es sched i currentStp (r.await (i - 1)).2 := by
          simp [FlowRun.iteration, hstop, hcur, hop, hi0, hs1]
        rw [this]
        have hi1 : (r.await (i - 1)).1.steps[i]? = some currentStp := by
          rw [FlowRun.await_frame r (i - 1) i (by omega), hcur]
        exact h1.launch_defined es sched hs1 currentStp _ hi1
    | COMBINE =>
      have hps : ∀ p ∈ List.range' (combineStart r.steps i) (i - combineStart r.steps i),
          p < i := by
        intro p hp
        simp only [List.mem_range'_1] at hp
        omega
      have h1 := FlowRun.Defined.awaitAll_defined _ hps r [] h hstop
      cases hs1 : (r.awaitAll
          (List.range' (combineStart r.steps i) (i - combineStart r.steps i)) []).1.stop with
      | some x =>
        have : FlowRun.iteration es sched r i = (r.awaitAll
            (List.range' (combineStart r.steps i) (i - combineStart r.steps i)) []).1 := by
          simp [FlowRun.iteration, hstop, hcur, hop, hs1]
        rw [this]
        exact h1.of_stopped _ (by rw [hs1]; simp)
      | none =>
        have : FlowRun.iteration es sched r i =
            (r.awaitAll
              (List.range' (combineStart r.steps i) (i - combineStart r.steps i)) []).1.launch
              es sched i currentStp
              (r.awaitAll
                (List.range' (combineStart r.steps i) (i - combineStart r.steps i)) []).2 := by
          simp [FlowRun.iteration, hstop, hcur, hop, hs1]
        rw [this]
        have hi1 : (r.awaitAll
            (List.range' (combineStart r.steps i) (i - combineStart r.steps i)) []).1.steps[i]? =
            some currentStp := by
          rw [FlowRun.awaitAll_frame _ i (fun hcon => Nat.lt_irrefl i (hps i hcon)), hcur]
        exact h1.launch_defined es sched hs1 currentStp _ hi1

theorem FlowRun.Defined.loop_defined (es : ExecutorService) (sched : Nat → Bool)
    (steps0 : List step)
    (hfirst : ∀ st0 : step, steps0[0]? = some st0 → st0.op ≠ OpType.APPLY) (n : Nat)
    (hn : n ≤ steps0.length) :
    FlowRun.Defined steps0 n
      (FlowRun.loop es sched { steps := steps0, log := [], stop := none } n) := by
  induction n with
  | zero =>
    exact
      { length_eq := rfl
        ops := fun p st hp => ⟨st, hp, rfl⟩
        launched := fun _ p hp => absurd hp (Nat.not_lt_zero p)
        no_panic := by simp [FlowRun.loop] }
  | succ n ih =>
    rw [FlowRun.loop_succ]
    exact (ih (by omega)).iteration_defined es sched (by omega) hfirst

/-- A builder call on a function target appends one step without a future. -/
theorem Flow.thenCall_ok (fl : Flow) (c : BuilderCall) (hk : c.targetFunc.kind = Kind.Func) :
    ∃ st : step, fl.thenCall c = some { fl with steps := fl.steps ++ [st] } ∧
      st.future = none := by
  cases c with
  | AndCall targetFunc args =>
    have hk1 : targetFunc.kind = Kind.Func := hk
    exact ⟨step.declared OpType.AND targetFunc args,
      by simp only [Flow.thenCall, Flow.AndCall, hk1, step.declared], rfl⟩
  | ThenCombine targetFunc =>
    have hk1 : targetFunc.kind = Kind.Func := hk
    exact ⟨step.declared OpType.COMBINE targetFunc [],
      by simp only [Flow.thenCall, Flow.ThenCombine, hk1, step.declared], rfl⟩
  | ThenApply targetFunc =>
    have hk1 : targetFunc.kind = Kind.Func := hk
    exact ⟨step.declared OpType.APPLY targetFunc [],
      by simp only [Flow.thenCall, Flow.ThenApply, hk1, step.declared], rfl⟩

/-- A chain of builder calls on function targets returns a flow: the steps of the receiver
followed by one step for each call. -/
theorem Flow.thenCalls_ok (calls : List BuilderCall)
    (hcalls : ∀ c ∈ calls, c.targetFunc.kind = Kind.Func) :
    ∀ fl : Flow, ∃ (fl1 : Flow) (rest : List step), fl.thenCalls calls = some fl1 ∧
      fl1.steps = fl.steps ++ rest ∧ rest.length = calls.length ∧ fl1.es = fl.es := by
  induction calls with
  | nil =>
    intro fl
    exact ⟨fl, [], rfl, by simp, rfl, rfl⟩
  | cons c calls ih =>
    intro fl
    obtain ⟨st, hst, _⟩ := fl.thenCall_ok c (hcalls c (by simp))
    obtain ⟨fl1, rest, h1, h2, h3, h4⟩ :=
      ih (fun d hd => hcalls d (by simp [hd])) { fl with steps := fl.steps ++ [st] }
    refine ⟨fl1, st :: rest, ?_, ?_, by simp [h3], h4⟩
    · simp only [Flow.thenCalls, hst, h1]
    · rw [h2]
      simp

/-- `NewFlow` on a function followed by builder calls on functions returns a flow whose
first step is the `CALL` step of `NewFlow`. -/
theorem buildFlow_ok (targetFunc : Target) (args : List Val) (calls : List BuilderCall)
    (hk : targetFunc.kind = Kind.Func)
    (hcalls : ∀ c ∈ calls, c.targetFunc.kind = Kind.Func) :
    ∃ (fl : Flow) (rest : List step), buildFlow targetFunc args calls = some fl ∧
      fl.steps = step.declared OpType.CALL targetFunc args :: rest ∧
      rest.length = calls.length := by
  obtain ⟨fl1, rest, h1, h2, h3, _⟩ := Flow.thenCalls_ok calls hcalls
    { steps := [step.declared OpType.CALL targetFunc args]
      future := none
      runOnce := false
      es := default_es }
  refine ⟨fl1, rest, ?_, by simpa using h2, h3⟩
  simp only [buildFlow, NewFlow, hk]
  exact h1

/-- The end of `runFlow` when no read of the loop was undefined: no panic. -/
theorem Flow.runFlow_no_panic (fl : Flow) (sched : Nat → Bool) (hne : fl.steps.length ≠ 0)
    (h : FlowRun.Defined fl.steps fl.steps.length
      (FlowRun.loop fl.es sched { steps := fl.steps, log := [], stop := none }
        fl.steps.length)) :
    (fl.runFlow sched).2 ≠ Outcome.panicked := by
  obtain ⟨r, hr⟩ : ∃ r, FlowRun.loop fl.es sched { steps := fl.steps, log := [], stop := none }
      fl.steps.length = r := ⟨_, rfl⟩
  rw [hr] at h
  simp only [Flow.runFlow, hr]
  cases hs : r.stop with
  | some x =>
    cases x with
    | returned err => simp
    | panicked => exact absurd hs h.no_panic
    | blocked => simp
  | none =>
    obtain ⟨last, s, hl, hf⟩ := h.launched hs (fl.steps.length - 1) (by omega)
    cases hg : s.Get0 with
    | none => simp [hne, hl, hf, hg]
    | some x =>
      obtain ⟨s1, vals, err⟩ := x
      simp [hne, hl, hf, hg]

/-- C12: for every flow built by `NewFlow` followed by any chain of `AndCall`, `ThenApply`
and `ThenCombine` calls, all on function targets, and every schedule of the pool: the
builder chain returns a flow with one step for each call, the first a `CALL` step; at the
start of every iteration `i` of the loop of `runFlow` the loop was not left by a panic, and
when it was not left at all, every step with index below `i` has a future, step `i` is in
range, and an `APPLY` step is not the first step; after the last iteration the last step
has a future; and `runFlow` does not panic. So the read of step `i - 1` by `APPLY`, the
reads of the steps from `start` to `i - 1` by `COMBINE` and the last read are defined. -/
theorem built_flow_reads_are_defined (targetFunc : Target) (args : List Val)
    (calls : List BuilderCall) (sched : Nat → Bool)
    (hk : targetFunc.kind = Kind.Func)
    (hcalls : ∀ c ∈ calls, c.targetFunc.kind = Kind.Func) :
    ∃ fl : Flow, buildFlow targetFunc args calls = some fl ∧
      fl.steps.length = calls.length + 1 ∧
      (∃ st : step, fl.steps[0]? = some st ∧ st.op = OpType.CALL) ∧
      (∀ i : Nat, i ≤ fl.steps.length →
        (FlowRun.loop fl.es sched { steps := fl.steps, log := [], stop := none }
          i).stop ≠ some Stop.panicked ∧
        ((FlowRun.loop fl.es sched { steps := fl.steps, log := [], stop := none }
            i).stop = none →
          (∀ p : Nat, p < i → ∃ (st : step) (s : Sys),
            (FlowRun.loop fl.es sched { steps := fl.steps, log := [], stop := none }
              i).steps[p]? = some st ∧ st.future = some s) ∧
          (i < fl.steps.length → ∃ currentStp : step,
            (FlowRun.loop fl.es sched { steps := fl.steps, log := [], stop := none }
              i).steps[i]? = some currentStp ∧
            (currentStp.op = OpType.APPLY → 0 < i) ∧
            (currentStp.op = OpType.COMBINE →
              combineStart (FlowRun.loop fl.es sched
                { steps := fl.steps, log := [], stop := none } i).steps i ≤ i)) ∧
          (i = fl.steps.length → ∃ (last : step) (s : Sys),
            (FlowRun.loop fl.es sched { steps := fl.steps, log := [], stop := none }
              i).steps[fl.steps.length - 1]? = some last ∧ last.future = some s))) ∧
      (fl.runFlow sched).2 ≠ Outcome.panicked := by
  obtain ⟨fl, rest, hbuild, hsteps, hrest⟩ := buildFlow_ok targetFunc args calls hk hcalls
  have hlen : fl.steps.length = calls.length + 1 := by
    rw [hsteps]
    simp [hrest]
  have h0 : fl.steps[0]? = some (step.declared OpType.CALL targetFunc args) := by
    rw [hsteps]
    simp
  have hfirst : ∀ st0 : step, fl.steps[0]? = some st0 → st0.op ≠ OpType.APPLY := by
    intro st0 hst0
    rw [h0] at hst0
    cases hst0
    simp [step.declared]
  have hdef := FlowRun.Defined.loop_defined fl.es sched fl.steps hfirst
  refine ⟨fl, hbuild, hlen, ⟨_, h0, rfl⟩, ?_, ?_⟩
  · intro i hi
    have hd := hdef i hi
    refine ⟨hd.no_panic, fun hstop => ⟨hd.launched hstop, ?_, ?_⟩⟩
    · intro hlt
      refine ⟨_, List.getElem?_eq_getElem (by rw [hd.length_eq]; exact hlt), ?_, ?_⟩
      · intro hop
        by_contra hcon
        have hi0 : i = 0 := by omega
        subst hi0
        obtain ⟨st0, hst0, ho⟩ := hd.ops 0 _
          (List.getElem?_eq_getElem (by rw [hd.length_eq]; exact hlt))
        exact hfirst st0 hst0 (by rw [← ho, hop])
      · intro _
        rcases (combineStart_spec (FlowRun.loop fl.es sched
          { steps := fl.steps, log := [], stop := none } i).steps i).1 with h | h
        · omega
        · omega
    · intro hil
      exact hd.launched hstop (fl.steps.length - 1) (by omega)
  · exact Flow.runFlow_no_panic fl sched (by omega) (hdef fl.steps.length (Nat.le_refl _))

/-- C12 at `NewFlow(hundred).ThenApply(double).AndCall(sixty).ThenCombine(add)`. -/
theorem built_flow_reads_are_defined_witness :
    hundredTarget.kind = Kind.Func ∧
    (∀ c ∈ [BuilderCall.ThenApply doubleTarget, BuilderCall.AndCall sixtyTarget [],
      BuilderCall.ThenCombine addTarget], c.targetFunc.kind = Kind.Func) ∧
    buildFlow hundredTarget [] [BuilderCall.ThenApply doubleTarget,
      BuilderCall.AndCall sixtyTarget [], BuilderCall.ThenCombine addTarget] =
      some chainFlow ∧
    ∃ fl : Flow, buildFlow hundredTarget [] [BuilderCall.ThenApply doubleTarget,
        BuilderCall.AndCall sixtyTarget [], BuilderCall.ThenCombine addTarget] = some fl ∧
      fl.steps.length = [BuilderCall.ThenApply doubleTarget,
        BuilderCall.AndCall sixtyTarget [], BuilderCall.ThenCombine addTarget].length + 1 ∧
      (∃ st : step, fl.steps[0]? = some st ∧ st.op = OpType.CALL) ∧
      (∀ i : Nat, i ≤ fl.steps.length →
        (FlowRun.loop fl.es (fun _ => false) { steps := fl.steps, log := [], stop := none }
          i).stop ≠ some Stop.panicked ∧
        ((FlowRun.loop fl.es (fun _ => false) { steps := fl.steps, log := [], stop := none }
            i).stop = none →
          (∀ p : Nat, p < i → ∃ (st : step) (s : Sys),
            (FlowRun.loop fl.es (fun _ => false)
              { steps := fl.steps, log := [], stop := none } i).steps[p]? = some st ∧
              st.future = some s) ∧
          (i < fl.steps.length → ∃ currentStp : step,
            (FlowRun.loop fl.es (fun _ => false)
              { steps := fl.steps, log := [], stop := none } i).steps[i]? =
              some currentStp ∧
            (currentStp.op = OpType.APPLY → 0 < i) ∧
            (currentStp.op = OpType.COMBINE →
              combineStart (FlowRun.loop fl.es (fun _ => false)
                { steps := fl.steps, log := [], stop := none } i).steps i ≤ i)) ∧
          (i = fl.steps.length → ∃ (last : step) (s : Sys),
            (FlowRun.loop fl.es (fun _ => false)
              { steps := fl.steps, log := [], stop := none }
              i).steps[fl.steps.length - 1]? = some last ∧ last.future = some s))) ∧
      (fl.runFlow (fun _ => false)).2 ≠ Outcome.panicked :=
  have hcalls : ∀ c ∈ [BuilderCall.ThenApply doubleTarget,
      BuilderCall.AndCall sixtyTarget [], BuilderCall.ThenCombine addTarget],
      c.targetFunc.kind = Kind.Func := by
    intro c hc
    simp only [List.mem_cons, List.mem_singleton, List.not_mem_nil, or_false] at hc
    rcases hc with rfl | rfl | rfl <;> rfl
  ⟨rfl, hcalls, rfl,
    built_flow_reads_are_defined hundredTarget [] [BuilderCall.ThenApply doubleTarget,
      BuilderCall.AndCall sixtyTarget [], BuilderCall.ThenCombine addTarget]
      (fun _ => false) rfl hcalls⟩

end Workflow
